import Mathlib

/-!
# Hierarchical virtual memory: embedding of `VirtualMemory.cpp`

A shallow embedding of the translation / allocation / eviction engine, and the
properties proved about it.

* C `int`, `word_t` and `long long` values are `Int`; `uint64_t` values that the
  code only masks and shifts (virtual addresses, page indices, table slots) are `Nat`.
  The search `find_frame_to_evict` keeps page numbers and the cyclic distance in C
  `int`: the embedding narrows these values to 32 bits with `toInt32`, and the
  `uint64_t` target page is narrowed where `swap_frame` passes it to the search.
  The theorems that depend on this arithmetic assume `Config.Valid`, which bounds the
  widths so that `1 << OFFSET_WIDTH`, the page numbers and the frame numbers fit `int`;
  for wider configurations the narrowing is visible (`find_leaf_wide` below).  Values
  handed to the physical memory are recorded as the signed values the code computes.
* The physical memory is not part of the sources; it is modelled as a word array, a
  page-keyed backing map and a trace of the calls made to it (most recent first).
* The file has three parts: the embedding of the source, the devices used to state the
  properties (walks of the tree, events of the search, invariants), and the theorems.
-/

namespace VirtualMemory

/-! ## Configuration constants -/

/-- Modelled from the spec: `MemoryConstants.h` is not among the sources; the three
widths are the compile-time configuration. -/
structure Config where
  VIRTUAL_ADDRESS_WIDTH : Nat
  OFFSET_WIDTH : Nat
  PHYSICAL_ADDRESS_WIDTH : Nat

/-- Modelled from the spec: `PAGE_SIZE = 2^OFFSET_WIDTH`, the number of words of a frame. -/
def Config.PAGE_SIZE (cfg : Config) : Nat := 2 ^ cfg.OFFSET_WIDTH

/-- Modelled from the spec:
`TABLES_DEPTH = ceil((VIRTUAL_ADDRESS_WIDTH - OFFSET_WIDTH) / OFFSET_WIDTH)`. -/
def Config.TABLES_DEPTH (cfg : Config) : Nat :=
  (cfg.VIRTUAL_ADDRESS_WIDTH - cfg.OFFSET_WIDTH + (cfg.OFFSET_WIDTH - 1)) / cfg.OFFSET_WIDTH

/-- Modelled from the spec: `NUM_FRAMES = 2^PHYSICAL_ADDRESS_WIDTH / PAGE_SIZE`. -/
def Config.NUM_FRAMES (cfg : Config) : Nat := 2 ^ cfg.PHYSICAL_ADDRESS_WIDTH / cfg.PAGE_SIZE

/-- Modelled from the spec: `NUM_PAGES = 2^(VIRTUAL_ADDRESS_WIDTH - OFFSET_WIDTH)`. -/
def Config.NUM_PAGES (cfg : Config) : Nat := 2 ^ (cfg.VIRTUAL_ADDRESS_WIDTH - cfg.OFFSET_WIDTH)

/-- Modelled from the spec: `VIRTUAL_MEMORY_SIZE = 2^VIRTUAL_ADDRESS_WIDTH`. -/
def Config.VIRTUAL_MEMORY_SIZE (cfg : Config) : Nat := 2 ^ cfg.VIRTUAL_ADDRESS_WIDTH

/-! ## Physical store adapter -/

/-- One call made to the physical store. -/
inductive PMOp where
  | read (physicalAddress : Int)
  | write (physicalAddress : Int) (value : Int)
  | evict (frameIndex : Int) (evictedPageIndex : Int)
  | restore (frameIndex : Int) (restoredPageIndex : Int)
  deriving DecidableEq, Repr

/-- Modelled from the spec: `PhysicalMemory` is an external collaborator whose code is
not among the sources.  The store is a word array `RAM`, a page-keyed backing map
`swapFile` (a saved page is kept as a map from in-page offset to word) and the trace of
the calls made so far, most recent call first. -/
structure PhysicalMemory where
  RAM : Int → Int
  swapFile : Int → Option (Int → Int)
  trace : List PMOp

/-- Modelled from the spec: read a word from a frame-relative address. -/
def PMread (pm : PhysicalMemory) (physicalAddress : Int) : Int × PhysicalMemory :=
  (pm.RAM physicalAddress, { pm with trace := PMOp.read physicalAddress :: pm.trace })

/-- Modelled from the spec: write a word to a frame-relative address. -/
def PMwrite (pm : PhysicalMemory) (physicalAddress : Int) (value : Int) : PhysicalMemory :=
  { pm with
    RAM := fun a => if a = physicalAddress then value else pm.RAM a
    trace := PMOp.write physicalAddress value :: pm.trace }

/-- Modelled from the spec: evict saves the contents of the frame under the page number. -/
def PMevict (cfg : Config) (pm : PhysicalMemory) (frameIndex evictedPageIndex : Int) :
    PhysicalMemory :=
  { pm with
    swapFile := fun p =>
      if p = evictedPageIndex then some (fun off => pm.RAM (frameIndex * cfg.PAGE_SIZE + off))
      else pm.swapFile p
    trace := PMOp.evict frameIndex evictedPageIndex :: pm.trace }

/-- Modelled from the spec: restore copies a saved page into the frame and drops the saved
copy; it does nothing when no copy of the page is saved. -/
def PMrestore (cfg : Config) (pm : PhysicalMemory) (frameIndex restoredPageIndex : Int) :
    PhysicalMemory :=
  match pm.swapFile restoredPageIndex with
  | none => { pm with trace := PMOp.restore frameIndex restoredPageIndex :: pm.trace }
  | some saved =>
    { RAM := fun a =>
        if frameIndex * cfg.PAGE_SIZE ≤ a ∧ a < frameIndex * cfg.PAGE_SIZE + cfg.PAGE_SIZE
        then saved (a - frameIndex * cfg.PAGE_SIZE) else pm.RAM a
      swapFile := fun p => if p = restoredPageIndex then none else pm.swapFile p
      trace := PMOp.restore frameIndex restoredPageIndex :: pm.trace }

/-! ## Address codec -/

/-- The loop of `separate_address`: iteration `i` stores the low `OFFSET_WIDTH` bits at
`entries[TABLES_DEPTH - i - 1]`, that is, in front of the entries stored so far. -/
def separate_address_loop (cfg : Config) : Nat → Nat → List Nat → List Nat
  | 0, _, entries => entries
  | n + 1, address, entries =>
    let mask := (1 <<< cfg.OFFSET_WIDTH) - 1
    separate_address_loop cfg n (address >>> cfg.OFFSET_WIDTH) ((address &&& mask) :: entries)

/-- Embedding of `separate_address`: the `TABLES_DEPTH` table slots of an address. -/
def separate_address (cfg : Config) (address : Nat) : List Nat :=
  separate_address_loop cfg cfg.TABLES_DEPTH address []

/-- Embedding of `get_subtable_sizes`: the bit width of every table level. -/
def get_subtable_sizes (cfg : Config) : List Nat :=
  let root_subtable_size :=
    (cfg.VIRTUAL_ADDRESS_WIDTH - cfg.OFFSET_WIDTH) % cfg.OFFSET_WIDTH
  (if root_subtable_size = 0 then cfg.OFFSET_WIDTH else root_subtable_size) ::
    List.replicate (cfg.TABLES_DEPTH - 1) cfg.OFFSET_WIDTH

/-! ## Frame operations -/

/-- Embedding of `empty_frame`: writes `0` to every word of the frame. -/
def empty_frame (cfg : Config) (frame_number : Int) (pm : PhysicalMemory) : PhysicalMemory :=
  (List.range cfg.PAGE_SIZE).foldl
    (fun pm (i : Nat) => PMwrite pm (frame_number * cfg.PAGE_SIZE + i) 0) pm

/-- Embedding of `VMinitialize`. -/
def VMinitialize (cfg : Config) (pm : PhysicalMemory) : PhysicalMemory :=
  empty_frame cfg 0 pm

/-- Narrowing of a value to the C type `int`: 32 bits, two's complement, so the result is
the value in `[-2^31, 2^31)` that differs from `x` by a multiple of `2^32`
(`2^31 = 2147483648`, `2^32 = 4294967296`). -/
def toInt32 (x : Int) : Int := (x + 2147483648) % 4294967296 - 2147483648

/-- The nine out-parameters threaded through `find_frame_to_evict`. -/
structure SearchState where
  max_used_index : Int
  free_frame_index : Int
  parent_of_free_index : Int
  parent_leg_free_index : Int
  maximal_cyclical_distance : Int
  maximal_cyclical_distance_frame_index : Int
  maximal_cyclical_distance_page_index : Int
  parent_of_maximal_cyclical_distance : Int
  parent_leg_cyclical_index : Int
  deriving DecidableEq, Repr

/-- The update `if (frame_index > *max_used_index) *max_used_index = frame_index`. -/
def update_max (frame_index : Int) (st : SearchState) : SearchState :=
  if frame_index > st.max_used_index then { st with max_used_index := frame_index } else st

/-- The leaf case of `find_frame_to_evict` (`current_depth == 0`); `first_part` and
`second_part` are C `int` values. -/
def find_leaf (cfg : Config) (page_swapped_in : Int) (my_parent_leg page_index frame_index
    parent_frame_index : Int) (st : SearchState) : SearchState :=
  let first_part :=
    if toInt32 (page_swapped_in - page_index) > 0 then toInt32 (page_swapped_in - page_index)
    else toInt32 (page_index - page_swapped_in)
  let second_part := toInt32 ((cfg.NUM_PAGES : Int) - first_part)
  let cyclic_distance := if first_part < second_part then first_part else second_part
  let st :=
    if cyclic_distance > st.maximal_cyclical_distance then
      { st with
        maximal_cyclical_distance := cyclic_distance
        maximal_cyclical_distance_frame_index := frame_index
        maximal_cyclical_distance_page_index := page_index
        parent_of_maximal_cyclical_distance := parent_frame_index
        parent_leg_cyclical_index := my_parent_leg }
    else st
  update_max frame_index st

/-- One iteration of the `for` loop of `find_frame_to_evict` over the slots of a table.
The loop state is `(is_empty, out-parameters, store)`; `recurse` is the recursive call at
`current_depth - 1`, taking `my_parent_leg`, `page_index`, `frame_index` and
`parent_frame_index`; `next_page_index = (page_index << width) + i` is a C `int`. -/
def find_loop_body (cfg : Config)
    (recurse : Int → Int → Int → Int → SearchState × PhysicalMemory →
      SearchState × PhysicalMemory)
    (width : Nat) (page_index frame_index : Int) (acc : Bool × SearchState × PhysicalMemory)
    (i : Nat) : Bool × SearchState × PhysicalMemory :=
  let rd := PMread acc.2.2 (frame_index * cfg.PAGE_SIZE + i)
  if rd.1 ≠ 0 then
    (false,
      recurse i (toInt32 (toInt32 (page_index * 2 ^ width) + i)) rd.1 frame_index
        (acc.2.1, rd.2))
  else (acc.1, acc.2.1, rd.2)

/-- The update made after the loop when the table is empty and is not the origin frame. -/
def record_free (my_parent_leg frame_index parent_frame_index : Int) (st : SearchState) :
    SearchState :=
  { st with
    free_frame_index := frame_index
    parent_of_free_index := parent_frame_index
    parent_leg_free_index := my_parent_leg }

/-- Embedding of `find_frame_to_evict`; the arguments after `current_depth` are
`my_parent_leg`, `page_index`, `frame_index`, `parent_frame_index` and the pair of the
out-parameters and the store. -/
def find_frame_to_evict (cfg : Config) (page_swapped_in : Int) (address_proportion : List Nat)
    (start_zero_frame : Int) :
    Nat → Int → Int → Int → Int → SearchState × PhysicalMemory → SearchState × PhysicalMemory
  | 0, my_parent_leg, page_index, frame_index, parent_frame_index, (st, pm) =>
    (find_leaf cfg page_swapped_in my_parent_leg page_index frame_index parent_frame_index st,
      pm)
  | current_depth + 1, my_parent_leg, page_index, frame_index, parent_frame_index, (st, pm) =>
    let width := address_proportion.getD (cfg.TABLES_DEPTH - (current_depth + 1)) 0
    let r := (List.range (1 <<< width)).foldl
      (find_loop_body cfg
        (find_frame_to_evict cfg page_swapped_in address_proportion start_zero_frame
          current_depth)
        width page_index frame_index)
      (true, update_max frame_index st, pm)
    if r.1 = true ∧ frame_index ≠ start_zero_frame then
      (record_free my_parent_leg frame_index parent_frame_index r.2.1, r.2.2)
    else r.2

/-- Initial values of the out-parameters in `swap_frame`. -/
def SearchState.init : SearchState := ⟨-1, -1, -1, -1, -1, -1, -1, -1, -1⟩

/-- The search `swap_frame` runs: `find_frame_to_evict` from the root frame; the
`uint64_t page_swapped_in` is narrowed to the `int` parameter of `find_frame_to_evict`. -/
def swap_search (cfg : Config) (start_zero_frame : Int) (page_swapped_in : Nat)
    (address_proportion : List Nat) (pm : PhysicalMemory) : SearchState × PhysicalMemory :=
  find_frame_to_evict cfg (toInt32 (page_swapped_in : Int)) address_proportion start_zero_frame
    cfg.TABLES_DEPTH (-1) 0 0 (-1) (SearchState.init, pm)

/-- Embedding of `swap_frame`: returns the chosen frame index and the new store. -/
def swap_frame (cfg : Config) (start_zero_frame : Int) (page_swapped_in : Nat)
    (address_proportion : List Nat) (pm : PhysicalMemory) : Int × PhysicalMemory :=
  let r := swap_search cfg start_zero_frame page_swapped_in address_proportion pm
  let st := r.1
  if st.free_frame_index > 0 ∧ st.parent_of_free_index > -1 then
    (st.free_frame_index,
      PMwrite r.2 (st.parent_of_free_index * cfg.PAGE_SIZE + st.parent_leg_free_index) 0)
  else if st.max_used_index + 1 < cfg.NUM_FRAMES then
    (st.max_used_index + 1, r.2)
  else
    let pm1 := PMevict cfg r.2 st.maximal_cyclical_distance_frame_index
      st.maximal_cyclical_distance_page_index
    (st.maximal_cyclical_distance_frame_index,
      PMwrite pm1
        (st.parent_of_maximal_cyclical_distance * cfg.PAGE_SIZE + st.parent_leg_cyclical_index) 0)

/-! ## Translator and public operations -/

/-- One iteration of the `for` loop of `get_PMaddress`; the loop state is
`(store, current_frame)`. -/
def get_PMaddress_step (cfg : Config) (virtualAddress : Nat) (entries : List Nat)
    (address_proportion : List Nat) (s : PhysicalMemory × Int) (lvl : Nat) :
    PhysicalMemory × Int :=
  let current_frame := s.2
  let address := entries.getD lvl 0
  let rd := PMread s.1 (current_frame * cfg.PAGE_SIZE + address)
  if rd.1 = 0 then
    let sw := swap_frame cfg current_frame (virtualAddress >>> cfg.OFFSET_WIDTH)
      address_proportion rd.2
    let next_free_frame := sw.1
    let pm1 := if lvl + 1 ≠ cfg.TABLES_DEPTH then empty_frame cfg next_free_frame sw.2 else sw.2
    (PMwrite pm1 (current_frame * cfg.PAGE_SIZE + address) next_free_frame, next_free_frame)
  else (rd.2, rd.1)

/-- The state of the loop of `get_PMaddress` after its first `n` iterations. -/
def get_PMaddress_loop (cfg : Config) (virtualAddress : Nat) (n : Nat) (pm : PhysicalMemory) :
    PhysicalMemory × Int :=
  let page_index := (virtualAddress >>> cfg.OFFSET_WIDTH) &&&
    ((1 <<< (cfg.VIRTUAL_ADDRESS_WIDTH - cfg.OFFSET_WIDTH)) - 1)
  (List.range n).foldl
    (get_PMaddress_step cfg virtualAddress (separate_address cfg page_index)
      (get_subtable_sizes cfg))
    (pm, 0)

/-- Embedding of `get_PMaddress`: returns `(current_frame, *ret_val, store)`. -/
def get_PMaddress (cfg : Config) (virtualAddress : Nat) (ret_val : Int) (pm : PhysicalMemory) :
    Int × Int × PhysicalMemory :=
  let ret_val := if virtualAddress ≥ cfg.VIRTUAL_MEMORY_SIZE then 0 else ret_val
  let page_index := (virtualAddress >>> cfg.OFFSET_WIDTH) &&&
    ((1 <<< (cfg.VIRTUAL_ADDRESS_WIDTH - cfg.OFFSET_WIDTH)) - 1)
  let s := get_PMaddress_loop cfg virtualAddress cfg.TABLES_DEPTH pm
  (s.2, ret_val, PMrestore cfg s.1 s.2 page_index)

/-- Embedding of `VMread`: returns `(return value, *value, store)`. -/
def VMread (cfg : Config) (virtualAddress : Nat) (value : Int) (pm : PhysicalMemory) :
    Int × Int × PhysicalMemory :=
  if virtualAddress ≥ cfg.VIRTUAL_MEMORY_SIZE then (0, value, pm)
  else
    let r := get_PMaddress cfg virtualAddress 1 pm
    let mask := (1 <<< cfg.OFFSET_WIDTH) - 1
    let offset := virtualAddress &&& mask
    let rd := PMread r.2.2 (r.1 * cfg.PAGE_SIZE + offset)
    (r.2.1, rd.1, rd.2)

/-- Embedding of `VMwrite`: returns `(return value, store)`. -/
def VMwrite (cfg : Config) (virtualAddress : Nat) (value : Int) (pm : PhysicalMemory) :
    Int × PhysicalMemory :=
  if virtualAddress ≥ cfg.VIRTUAL_MEMORY_SIZE then (0, pm)
  else
    let r := get_PMaddress cfg virtualAddress 1 pm
    let mask := (1 <<< cfg.OFFSET_WIDTH) - 1
    let offset := virtualAddress &&& mask
    (r.2.1, PMwrite r.2.2 (r.1 * cfg.PAGE_SIZE + offset) value)

/-! ## Specification devices

Definitions used only to state and prove properties of the embedding: classification of
store calls, walks through the page-table tree along a list of slots, and the sequence
of events of the depth-first search. -/

/-- The store call is a `PMread`. -/
def PMOp.isRead : PMOp → Bool
  | PMOp.read _ => true
  | _ => false

/-- The store call is a `PMwrite`. -/
def PMOp.isWrite : PMOp → Bool
  | PMOp.write _ _ => true
  | _ => false

/-- The store call is a `PMevict`. -/
def PMOp.isEvict : PMOp → Bool
  | PMOp.evict _ _ => true
  | _ => false

/-- The store call is a `PMrestore`. -/
def PMOp.isRestore : PMOp → Bool
  | PMOp.restore _ _ => true
  | _ => false

/-- The store `pm2` is `pm1` after some further `PMread` calls and nothing else. -/
def ReadsOnly (pm1 pm2 : PhysicalMemory) : Prop :=
  pm2.RAM = pm1.RAM ∧ pm2.swapFile = pm1.swapFile ∧
    ∃ l : List PMOp, pm2.trace = l ++ pm1.trace ∧ ∀ op ∈ l, op.isRead = true

/-- The calls in `pm2.trace` after those of `pm1.trace` all satisfy `P`. -/
def TraceExt (P : PMOp → Prop) (pm1 pm2 : PhysicalMemory) : Prop :=
  ∃ l : List PMOp, pm2.trace = l ++ pm1.trace ∧ ∀ op ∈ l, P op

/-- A store with every word `0`, nothing saved and no call made. -/
def zeroStore : PhysicalMemory := ⟨fun _ => 0, fun _ => none, []⟩

/-- Bit width of table level `lvl` (level `0` is the root), read from
`get_subtable_sizes` the way `find_frame_to_evict` indexes it. -/
def levelWidth (cfg : Config) (lvl : Nat) : Nat := (get_subtable_sizes cfg).getD lvl 0

/-- Follow the table entries at the given slots, starting at `frame`; `none` as soon as
an entry is `0` (unpopulated). -/
def walkFrom (cfg : Config) (ram : Int → Int) : Int → List Nat → Option Int
  | frame, [] => some frame
  | frame, e :: es =>
    if ram (frame * cfg.PAGE_SIZE + e) = 0 then none
    else walkFrom cfg ram (ram (frame * cfg.PAGE_SIZE + e)) es

/-- Every slot is below the number of entries of its level, the first slot being at
level `lvl`. -/
def ValidSlots (cfg : Config) : Nat → List Nat → Prop
  | _, [] => True
  | lvl, e :: es => e < 2 ^ levelWidth cfg lvl ∧ ValidSlots cfg (lvl + 1) es

/-- A list of slots from the root that stays within the tree: at most `TABLES_DEPTH`
slots, each valid for its level. -/
def ValidPath (cfg : Config) (path : List Nat) : Prop :=
  path.length ≤ cfg.TABLES_DEPTH ∧ ValidSlots cfg 0 path

/-- The page number the search builds along a list of slots, starting from `page` at
level `lvl`, in the `int` arithmetic of the search. -/
def pageFrom (cfg : Config) : Nat → Int → List Nat → Int
  | _, page, [] => page
  | lvl, page, e :: es =>
    pageFrom cfg (lvl + 1) (toInt32 (toInt32 (page * 2 ^ levelWidth cfg lvl) + e)) es

/-- The frame and the slot through which the end of a walk is linked, given those of
the start of the walk. -/
def lastLink (cfg : Config) (ram : Int → Int) : Int → Int → Int → List Nat → Int × Int
  | _, parent, leg, [] => (parent, leg)
  | frame, _, _, e :: es => lastLink cfg ram (ram (frame * cfg.PAGE_SIZE + e)) frame e es

/-- What the search does at a frame: visit a data page, enter a table, or leave a table
none of whose slots is populated. -/
inductive SearchEvent where
  | leaf (frame page parent leg : Int)
  | enter (frame : Int)
  | emptyTable (frame parent leg : Int)
  deriving DecidableEq, Repr

/-- The update of the out-parameters made at one event of the search. -/
def absorb (cfg : Config) (page_swapped_in : Int) (start_zero_frame : Int) (st : SearchState) :
    SearchEvent → SearchState
  | SearchEvent.leaf frame page parent leg =>
    find_leaf cfg page_swapped_in leg page frame parent st
  | SearchEvent.enter frame => update_max frame st
  | SearchEvent.emptyTable frame parent leg =>
    if frame ≠ start_zero_frame then record_free leg frame parent st else st

/-- The events of the child at slot `i` of a table, none when the slot is unpopulated;
`sub` gives the events of a populated child from its leg, page index, frame and parent. -/
def childEvents (cfg : Config) (ram : Int → Int) (sub : Int → Int → Int → Int → List SearchEvent)
    (width : Nat) (page_index frame_index : Int) (i : Nat) : List SearchEvent :=
  if ram (frame_index * cfg.PAGE_SIZE + i) ≠ 0 then
    sub i (toInt32 (toInt32 (page_index * 2 ^ width) + i))
      (ram (frame_index * cfg.PAGE_SIZE + i)) frame_index
  else []

/-- No slot of the table below `2 ^ width` is populated. -/
def tableEmpty (cfg : Config) (ram : Int → Int) (width : Nat) (frame_index : Int) : Bool :=
  (List.range (1 <<< width)).all (fun i => decide (ram (frame_index * cfg.PAGE_SIZE + i) = 0))

/-- Concatenation of the events of the children at the given slots. -/
def eventsLoop (child : Nat → List SearchEvent) : List Nat → List SearchEvent
  | [] => []
  | i :: rest => child i ++ eventsLoop child rest

/-- The events of `find_frame_to_evict` in the order in which they update the
out-parameters. -/
def events (cfg : Config) (ram : Int → Int) (address_proportion : List Nat) :
    Nat → Int → Int → Int → Int → List SearchEvent
  | 0, my_parent_leg, page_index, frame_index, parent_frame_index =>
    [SearchEvent.leaf frame_index page_index parent_frame_index my_parent_leg]
  | current_depth + 1, my_parent_leg, page_index, frame_index, parent_frame_index =>
    let width := address_proportion.getD (cfg.TABLES_DEPTH - (current_depth + 1)) 0
    SearchEvent.enter frame_index ::
      (eventsLoop
        (childEvents cfg ram (events cfg ram address_proportion current_depth) width
          page_index frame_index)
        (List.range (1 <<< width)) ++
      if tableEmpty cfg ram width frame_index then
        [SearchEvent.emptyTable frame_index parent_frame_index my_parent_leg]
      else [])

/-- The cyclic distance between the target page and a page, as computed at a leaf, in
the `int` arithmetic of the search. -/
def cyclicDistance (cfg : Config) (page_swapped_in page_index : Int) : Int :=
  let first_part :=
    if toInt32 (page_swapped_in - page_index) > 0 then toInt32 (page_swapped_in - page_index)
    else toInt32 (page_index - page_swapped_in)
  let second_part := toInt32 ((cfg.NUM_PAGES : Int) - first_part)
  if first_part < second_part then first_part else second_part

/-- Well-formed page-table tree whose frames are exactly `0 .. k`: every frame reached
along a valid path is in `[0, k]`, no frame is reached along two valid paths, and every
frame of `[0, k]` is reached. -/
structure TreeInv (cfg : Config) (ram : Int → Int) (k : Int) : Prop where
  bound : ∀ path f, ValidPath cfg path → walkFrom cfg ram 0 path = some f → 0 ≤ f ∧ f ≤ k
  inj : ∀ path1 path2 f, ValidPath cfg path1 → ValidPath cfg path2 →
    walkFrom cfg ram 0 path1 = some f → walkFrom cfg ram 0 path2 = some f → path1 = path2
  surj : ∀ f, 0 ≤ f → f ≤ k → ∃ path, ValidPath cfg path ∧ walkFrom cfg ram 0 path = some f
  lt_frames : k < cfg.NUM_FRAMES

/-- The event `ev` is one the search makes at frame `g`, reached from `f` along `path`,
when `f` is searched with `d` levels below it, at level `lvl`. -/
def EventAt (cfg : Config) (ram : Int → Int) (lvl d : Nat) (leg0 page0 f parent0 : Int)
    (path : List Nat) (g : Int) (ev : SearchEvent) : Prop :=
  (path.length = d ∧
      ev = SearchEvent.leaf g (pageFrom cfg lvl page0 path)
        (lastLink cfg ram f parent0 leg0 path).1 (lastLink cfg ram f parent0 leg0 path).2) ∨
    (path.length < d ∧
      (ev = SearchEvent.enter g ∨
        (tableEmpty cfg ram (levelWidth cfg (lvl + path.length)) g = true ∧
          ev = SearchEvent.emptyTable g (lastLink cfg ram f parent0 leg0 path).1
            (lastLink cfg ram f parent0 leg0 path).2)))

/-- The free-frame out-parameters `(free_frame_index, parent_of_free_index,
parent_leg_free_index)` after an event, given their values `x` before it. -/
def freeAfter (origin : Int) (x : Int × Int × Int) : SearchEvent → Int × Int × Int
  | SearchEvent.emptyTable f par leg => if f ≠ origin then (f, par, leg) else x
  | _ => x

/-- The free-frame out-parameters of a search state. -/
def SearchState.free (st : SearchState) : Int × Int × Int :=
  (st.free_frame_index, st.parent_of_free_index, st.parent_leg_free_index)

/-- The stores reachable from `VMinitialize` (applied to any store) by `VMread` and
`VMwrite` calls with in-range addresses. -/
inductive Reachable (cfg : Config) : PhysicalMemory → Prop where
  | init (pm0 : PhysicalMemory) : Reachable cfg ( VMinitialize cfg pm0)
  | read (pm : PhysicalMemory) (a : Nat) (value : Int) :
    Reachable cfg pm → a < cfg.VIRTUAL_MEMORY_SIZE → Reachable cfg (VMread cfg a value pm).2.2
  | write (pm : PhysicalMemory) (a : Nat) (value : Int) :
    Reachable cfg pm → a < cfg.VIRTUAL_MEMORY_SIZE → Reachable cfg (VMwrite cfg a value pm).2

/-- A call of the public interface: `VMread` with the initial content of the output
word, or `VMwrite`. -/
inductive VMOp where
  | read (virtualAddress : Nat) (value : Int)
  | write (virtualAddress : Nat) (value : Int)
  deriving DecidableEq, Repr

/-- The virtual address of a call. -/
def VMOp.addr : VMOp → Nat
  | VMOp.read a _ => a
  | VMOp.write a _ => a

/-- The store after one call. -/
def runOp (cfg : Config) (pm : PhysicalMemory) : VMOp → PhysicalMemory
  | VMOp.read a value => (VMread cfg a value pm).2.2
  | VMOp.write a value => (VMwrite cfg a value pm).2

/-- The store after a sequence of calls, the first call first. -/
def runOps (cfg : Config) (ops : List VMOp) (pm : PhysicalMemory) : PhysicalMemory :=
  ops.foldl (runOp cfg) pm

/-- The configuration of the concrete scenario of the specification:
`VIRTUAL_ADDRESS_WIDTH = 16`, `OFFSET_WIDTH = 4` and `NUM_FRAMES = 8`. -/
def scenarioConfig : Config := ⟨16, 4, 7⟩

/-- A configuration with a single frame: one page bit, one offset bit. -/
def oneFrameConfig : Config := ⟨2, 1, 1⟩

/-- A store whose word at address `a` is `a + 1`, with nothing saved and no call made. -/
def rampStore : PhysicalMemory := ⟨fun a => a + 1, fun _ => none, []⟩

/-- The depth-first search reaches the slots of `p1` before those of `p2`: the two lists
of slots agree up to a position at which `p1` takes the smaller slot number. -/
def LeftOf (p1 p2 : List Nat) : Prop :=
  ∃ (c : List Nat) (i j : Nat) (r1 r2 : List Nat), p1 = c ++ i :: r1 ∧ p2 = c ++ j :: r2 ∧ i < j

/-- Frame `F` is a table frame of the tree, reached from the root along `p`, other than
`origin`, none of whose slots is populated: a frame that `find_frame_to_evict` records as
free. -/
def EmptyTablePath (cfg : Config) (ram : Int → Int) (origin : Int) (p : List Nat) (F : Int) :
    Prop :=
  ValidPath cfg p ∧ p.length < cfg.TABLES_DEPTH ∧ walkFrom cfg ram 0 p = some F ∧
    tableEmpty cfg ram (levelWidth cfg p.length) F = true ∧ F ≠ origin

/-- When both events are empty tables, the first is reached along slots that the search
takes before those of the second. -/
def EmptyBefore (cfg : Config) (ram : Int → Int) (e1 e2 : SearchEvent) : Prop :=
  ∀ (F1 P1 l1 F2 P2 l2 : Int) (p1 p2 : List Nat), e1 = SearchEvent.emptyTable F1 P1 l1 →
    e2 = SearchEvent.emptyTable F2 P2 l2 → ValidPath cfg p1 → ValidPath cfg p2 →
    walkFrom cfg ram 0 p1 = some F1 → walkFrom cfg ram 0 p2 = some F2 → LeftOf p1 p2

/-- A configuration with two table levels of four slots each: `VIRTUAL_ADDRESS_WIDTH = 6`,
`OFFSET_WIDTH = 2`, `PHYSICAL_ADDRESS_WIDTH = 4`; there are `16` pages and `4` frames. -/
def twoLevelConfig : Config := ⟨6, 2, 4⟩

/-- A store of `twoLevelConfig` whose root links two table frames, frame `1` at slot `0`
and frame `2` at slot `1`; every other word, so every word of frames `1` and `2`, is `0`. -/
def twoEmptyStore : PhysicalMemory :=
  ⟨fun a => if a = 0 then 1 else if a = 1 then 2 else 0, fun _ => none, []⟩

/-- A configuration whose `2^32` pages do not fit the C type `int`:
`VIRTUAL_ADDRESS_WIDTH = 36`, `OFFSET_WIDTH = 4`, `PHYSICAL_ADDRESS_WIDTH = 10`. -/
def wideConfig : Config := ⟨36, 4, 10⟩

/-! ## The store operations -/

@[simp] theorem PMread_fst (pm : PhysicalMemory) (a : Int) : (PMread pm a).1 = pm.RAM a := rfl

@[simp] theorem PMread_RAM (pm : PhysicalMemory) (a : Int) : (PMread pm a).2.RAM = pm.RAM := rfl

@[simp] theorem PMread_trace (pm : PhysicalMemory) (a : Int) :
    (PMread pm a).2.trace = PMOp.read a :: pm.trace := rfl

@[simp] theorem PMwrite_RAM (pm : PhysicalMemory) (a v : Int) :
    (PMwrite pm a v).RAM = fun x => if x = a then v else pm.RAM x := rfl

@[simp] theorem PMwrite_swapFile (pm : PhysicalMemory) (a v : Int) :
    (PMwrite pm a v).swapFile = pm.swapFile := rfl

@[simp] theorem PMwrite_trace (pm : PhysicalMemory) (a v : Int) :
    (PMwrite pm a v).trace = PMOp.write a v :: pm.trace := rfl

@[simp] theorem PMevict_RAM (cfg : Config) (pm : PhysicalMemory) (f p : Int) :
    (PMevict cfg pm f p).RAM = pm.RAM := rfl

@[simp] theorem PMevict_swapFile (cfg : Config) (pm : PhysicalMemory) (f p : Int) :
    (PMevict cfg pm f p).swapFile = fun q =>
      if q = p then some (fun off => pm.RAM (f * cfg.PAGE_SIZE + off)) else pm.swapFile q := rfl

@[simp] theorem PMevict_trace (cfg : Config) (pm : PhysicalMemory) (f p : Int) :
    (PMevict cfg pm f p).trace = PMOp.evict f p :: pm.trace := rfl

@[simp] theorem PMrestore_trace (cfg : Config) (pm : PhysicalMemory) (f p : Int) :
    (PMrestore cfg pm f p).trace = PMOp.restore f p :: pm.trace := by
  unfold PMrestore
  split <;> rfl

theorem PMrestore_of_none (cfg : Config) (pm : PhysicalMemory) (f p : Int)
    (h : pm.swapFile p = none) :
    (PMrestore cfg pm f p).RAM = pm.RAM ∧ (PMrestore cfg pm f p).swapFile = pm.swapFile := by
  unfold PMrestore
  rw [h]
  exact ⟨rfl, rfl⟩

theorem PMrestore_of_some (cfg : Config) (pm : PhysicalMemory) (f p : Int) (saved : Int → Int)
    (h : pm.swapFile p = some saved) :
    (PMrestore cfg pm f p).RAM = (fun a =>
        if f * cfg.PAGE_SIZE ≤ a ∧ a < f * cfg.PAGE_SIZE + cfg.PAGE_SIZE
        then saved (a - f * cfg.PAGE_SIZE) else pm.RAM a) ∧
      (PMrestore cfg pm f p).swapFile = fun q => if q = p then none else pm.swapFile q := by
  unfold PMrestore
  rw [h]
  exact ⟨rfl, rfl⟩

theorem PMrestore_swapFile_self (cfg : Config) (pm : PhysicalMemory) (f p : Int) :
    (PMrestore cfg pm f p).swapFile p = none := by
  cases h : pm.swapFile p with
  | none => rw [(PMrestore_of_none cfg pm f p h).2, h]
  | some saved => rw [(PMrestore_of_some cfg pm f p saved h).2]; simp

/-! ## Trace extensions -/

theorem ReadsOnly_refl (pm : PhysicalMemory) : ReadsOnly pm pm :=
  ⟨rfl, rfl, [], rfl, by simp⟩

theorem ReadsOnly_trans {pm1 pm2 pm3 : PhysicalMemory} (h12 : ReadsOnly pm1 pm2)
    (h23 : ReadsOnly pm2 pm3) : ReadsOnly pm1 pm3 := by
  obtain ⟨hr, hs, l, hl, hp⟩ := h12
  obtain ⟨hr', hs', l', hl', hp'⟩ := h23
  refine ⟨hr'.trans hr, hs'.trans hs, l' ++ l, ?_, ?_⟩
  · rw [hl', hl, List.append_assoc]
  · intro op hop
    rcases List.mem_append.1 hop with h | h
    · exact hp' op h
    · exact hp op h

theorem ReadsOnly_PMread (pm : PhysicalMemory) (a : Int) : ReadsOnly pm (PMread pm a).2 :=
  ⟨rfl, rfl, [PMOp.read a], rfl, by simp [PMOp.isRead]⟩

theorem TraceExt_refl (P : PMOp → Prop) (pm : PhysicalMemory) : TraceExt P pm pm :=
  ⟨[], rfl, by simp⟩

theorem TraceExt_trans {P : PMOp → Prop} {pm1 pm2 pm3 : PhysicalMemory}
    (h12 : TraceExt P pm1 pm2) (h23 : TraceExt P pm2 pm3) : TraceExt P pm1 pm3 := by
  obtain ⟨l, hl, hp⟩ := h12
  obtain ⟨l', hl', hp'⟩ := h23
  refine ⟨l' ++ l, ?_, ?_⟩
  · rw [hl', hl, List.append_assoc]
  · intro op hop
    rcases List.mem_append.1 hop with h | h
    · exact hp' op h
    · exact hp op h

theorem TraceExt_cons {P : PMOp → Prop} {pm1 pm2 : PhysicalMemory} (op : PMOp) (hop : P op)
    (h : pm2.trace = op :: pm1.trace) : TraceExt P pm1 pm2 :=
  ⟨[op], by simpa using h, by simpa using hop⟩

theorem ReadsOnly_traceExt {P : PMOp → Prop} {pm1 pm2 : PhysicalMemory}
    (h : ReadsOnly pm1 pm2) (hP : ∀ op, op.isRead = true → P op) : TraceExt P pm1 pm2 := by
  obtain ⟨_, _, l, hl, hp⟩ := h
  exact ⟨l, hl, fun op hop => hP op (hp op hop)⟩

/-! ## The search as a fold over its events -/

theorem eventsLoop_append (child : Nat → List SearchEvent) (l1 l2 : List Nat) :
    eventsLoop child (l1 ++ l2) = eventsLoop child l1 ++ eventsLoop child l2 := by
  induction l1 with
  | nil => rfl
  | cons i rest ih => simp [eventsLoop, ih]

theorem mem_eventsLoop {child : Nat → List SearchEvent} {l : List Nat} {ev : SearchEvent} :
    ev ∈ eventsLoop child l ↔ ∃ i ∈ l, ev ∈ child i := by
  induction l with
  | nil => simp [eventsLoop]
  | cons i rest ih => simp [eventsLoop, ih]

/-- The loop over the slots of a table, given that the recursive calls are folds over
their events. -/
theorem find_loop_spec (cfg : Config) (page_swapped_in : Int) (address_proportion : List Nat)
    (start_zero_frame : Int) (d : Nat) (width : Nat) (page_index frame_index : Int)
    (ih : ∀ (leg page frame parent : Int) (st : SearchState) (pm : PhysicalMemory),
      (find_frame_to_evict cfg page_swapped_in address_proportion start_zero_frame d leg page
          frame parent (st, pm)).1 =
        (events cfg pm.RAM address_proportion d leg page frame parent).foldl
          (absorb cfg page_swapped_in start_zero_frame) st ∧
      ReadsOnly pm (find_frame_to_evict cfg page_swapped_in address_proportion
        start_zero_frame d leg page frame parent (st, pm)).2)
    (l : List Nat) (b : Bool) (st : SearchState) (pm : PhysicalMemory) :
    (l.foldl (find_loop_body cfg
        (find_frame_to_evict cfg page_swapped_in address_proportion start_zero_frame d)
        width page_index frame_index) (b, st, pm)).1 =
      (b && l.all (fun i => decide (pm.RAM (frame_index * cfg.PAGE_SIZE + i) = 0))) ∧
    (l.foldl (find_loop_body cfg
        (find_frame_to_evict cfg page_swapped_in address_proportion start_zero_frame d)
        width page_index frame_index) (b, st, pm)).2.1 =
      (eventsLoop (childEvents cfg pm.RAM (events cfg pm.RAM address_proportion d) width
        page_index frame_index) l).foldl (absorb cfg page_swapped_in start_zero_frame) st ∧
    ReadsOnly pm (l.foldl (find_loop_body cfg
        (find_frame_to_evict cfg page_swapped_in address_proportion start_zero_frame d)
        width page_index frame_index) (b, st, pm)).2.2 := by
  induction l generalizing b st pm with
  | nil => simp [eventsLoop, ReadsOnly_refl]
  | cons i rest ihl =>
    rw [List.foldl_cons]
    by_cases hz : pm.RAM (frame_index * cfg.PAGE_SIZE + i) = 0
    · have hstep : find_loop_body cfg
          (find_frame_to_evict cfg page_swapped_in address_proportion start_zero_frame d)
          width page_index frame_index (b, st, pm) i =
          (b, st, (PMread pm (frame_index * cfg.PAGE_SIZE + i)).2) := by
        simp [find_loop_body, hz]
      rw [hstep]
      have h := ihl b st (PMread pm (frame_index * cfg.PAGE_SIZE + i)).2
      simp only [PMread_RAM] at h
      refine ⟨?_, ?_, ?_⟩
      · rw [h.1]; simp [hz]
      · rw [h.2.1]; simp [eventsLoop, childEvents, hz]
      · exact ReadsOnly_trans (ReadsOnly_PMread pm _) h.2.2
    · obtain ⟨ih1, ih2⟩ := ih i (toInt32 (toInt32 (page_index * 2 ^ width) + i))
        (pm.RAM (frame_index * cfg.PAGE_SIZE + i)) frame_index st
        (PMread pm (frame_index * cfg.PAGE_SIZE + i)).2
      have hstep : find_loop_body cfg
          (find_frame_to_evict cfg page_swapped_in address_proportion start_zero_frame d)
          width page_index frame_index (b, st, pm) i =
          (false, find_frame_to_evict cfg page_swapped_in address_proportion start_zero_frame
              d i (toInt32 (toInt32 (page_index * 2 ^ width) + i)) (pm.RAM (frame_index * cfg.PAGE_SIZE + i))
              frame_index (st, (PMread pm (frame_index * cfg.PAGE_SIZE + i)).2)) := by
        simp [find_loop_body, hz]
      rw [hstep]
      generalize hr : find_frame_to_evict cfg page_swapped_in address_proportion
        start_zero_frame d i (toInt32 (toInt32 (page_index * 2 ^ width) + i))
        (pm.RAM (frame_index * cfg.PAGE_SIZE + i)) frame_index
        (st, (PMread pm (frame_index * cfg.PAGE_SIZE + i)).2) = r at ih1 ih2
      obtain ⟨st1, pm1⟩ := r
      have h := ihl false st1 pm1
      have hram : pm1.RAM = pm.RAM := ih2.1
      rw [hram] at h
      refine ⟨?_, ?_, ?_⟩
      · rw [h.1]; simp [hz]
      · rw [h.2.1]
        simp only at ih1
        rw [ih1]
        simp [eventsLoop, childEvents, hz, List.foldl_append]
      · exact ReadsOnly_trans (ReadsOnly_trans (ReadsOnly_PMread pm _) ih2) h.2.2

/-- The search is the fold of `absorb` over the events of the tree, and its only store
calls are reads. -/
theorem find_frame_to_evict_spec (cfg : Config) (page_swapped_in : Int)
    (address_proportion : List Nat) (start_zero_frame : Int) (d : Nat) :
    ∀ (leg page frame parent : Int) (st : SearchState) (pm : PhysicalMemory),
      (find_frame_to_evict cfg page_swapped_in address_proportion start_zero_frame d leg page
          frame parent (st, pm)).1 =
        (events cfg pm.RAM address_proportion d leg page frame parent).foldl
          (absorb cfg page_swapped_in start_zero_frame) st ∧
      ReadsOnly pm (find_frame_to_evict cfg page_swapped_in address_proportion
        start_zero_frame d leg page frame parent (st, pm)).2 := by
  induction d with
  | zero =>
    intro leg page frame parent st pm
    simp [find_frame_to_evict, events, absorb, ReadsOnly_refl]
  | succ d ih =>
    intro leg page frame parent st pm
    obtain ⟨h1, h2, h3⟩ := find_loop_spec cfg page_swapped_in address_proportion
      start_zero_frame d
      (address_proportion.getD (cfg.TABLES_DEPTH - (d + 1)) 0) page frame ih
      (List.range (1 <<< address_proportion.getD (cfg.TABLES_DEPTH - (d + 1)) 0)) true
      (update_max frame st) pm
    rw [find_frame_to_evict]
    simp only [events, List.foldl_cons, List.foldl_append]
    rw [Bool.true_and] at h1
    change _ = tableEmpty cfg pm.RAM _ frame at h1
    generalize hr : List.foldl (find_loop_body cfg
        (find_frame_to_evict cfg page_swapped_in address_proportion start_zero_frame d)
        (address_proportion.getD (cfg.TABLES_DEPTH - (d + 1)) 0) page frame)
        (true, update_max frame st, pm)
        (List.range (1 <<< address_proportion.getD (cfg.TABLES_DEPTH - (d + 1)) 0)) = r
      at h1 h2 h3
    obtain ⟨b, st1, pm1⟩ := r
    simp only at h1 h2 h3
    subst h1
    simp only [absorb]
    rw [← h2]
    cases hall : tableEmpty cfg pm.RAM
        (address_proportion.getD (cfg.TABLES_DEPTH - (d + 1)) 0) frame
    · simp [h3]
    · by_cases ho : frame = start_zero_frame
      · simp [ho, absorb, h3]
      · simp [ho, absorb, h3]
/-! ## Configuration arithmetic -/

theorem PAGE_SIZE_pos (cfg : Config) : 0 < cfg.PAGE_SIZE := by
  unfold Config.PAGE_SIZE
  positivity

theorem PAGE_SIZE_pos_int (cfg : Config) : (0 : Int) < cfg.PAGE_SIZE := by
  exact_mod_cast PAGE_SIZE_pos cfg

theorem TABLES_DEPTH_ge_one (cfg : Config) (h1 : 1 ≤ cfg.OFFSET_WIDTH)
    (h2 : cfg.OFFSET_WIDTH < cfg.VIRTUAL_ADDRESS_WIDTH) : 1 ≤ cfg.TABLES_DEPTH := by
  unfold Config.TABLES_DEPTH
  rw [Nat.le_div_iff_mul_le (by omega)]
  omega

theorem levelWidth_zero (cfg : Config) :
    levelWidth cfg 0 =
      if (cfg.VIRTUAL_ADDRESS_WIDTH - cfg.OFFSET_WIDTH) % cfg.OFFSET_WIDTH = 0
      then cfg.OFFSET_WIDTH
      else (cfg.VIRTUAL_ADDRESS_WIDTH - cfg.OFFSET_WIDTH) % cfg.OFFSET_WIDTH := by
  simp [levelWidth, get_subtable_sizes]

theorem levelWidth_succ (cfg : Config) (lvl : Nat) (h : lvl + 1 < cfg.TABLES_DEPTH) :
    levelWidth cfg (lvl + 1) = cfg.OFFSET_WIDTH := by
  simp only [levelWidth, get_subtable_sizes, List.getD_cons_succ]
  rw [List.getD_eq_getElem _ _ (by simp; omega)]
  simp

/-- The level widths add up to the bit length of a page index. -/
theorem levelWidth_total (cfg : Config) (h1 : 1 ≤ cfg.OFFSET_WIDTH)
    (h2 : cfg.OFFSET_WIDTH < cfg.VIRTUAL_ADDRESS_WIDTH) :
    levelWidth cfg 0 + cfg.OFFSET_WIDTH * (cfg.TABLES_DEPTH - 1) =
      cfg.VIRTUAL_ADDRESS_WIDTH - cfg.OFFSET_WIDTH := by
  rw [levelWidth_zero]
  unfold Config.TABLES_DEPTH
  generalize hn : cfg.VIRTUAL_ADDRESS_WIDTH - cfg.OFFSET_WIDTH = n
  generalize cfg.OFFSET_WIDTH = w at h1 h2 hn
  have hdm := Nat.div_add_mod n w
  split
  next hr =>
    have hdiv : (n + (w - 1)) / w = n / w := by
      have : n + (w - 1) = (w - 1) + w * (n / w) := by omega
      rw [this, Nat.add_mul_div_left _ _ (by omega), Nat.div_eq_of_lt (by omega)]
      omega
    rw [hdiv]
    have hpos : 1 ≤ n / w := by
      rcases Nat.eq_zero_or_pos (n / w) with h0 | h0
      · rw [h0] at hdm; omega
      · exact h0
    have hsub : w * (n / w - 1) = w * (n / w) - w := by
      rw [Nat.mul_sub, Nat.mul_one]
    have hle : w ≤ w * (n / w) := Nat.le_mul_of_pos_right _ hpos
    omega
  next hr =>
    have hlt := Nat.mod_lt n (show w > 0 by omega)
    have hdiv : (n + (w - 1)) / w = n / w + 1 := by
      have : n + (w - 1) = (n % w - 1) + w * (n / w + 1) := by
        rw [Nat.mul_add]; omega
      rw [this, Nat.add_mul_div_left _ _ (by omega), Nat.div_eq_of_lt (by omega)]
      omega
    rw [hdiv]
    simp only [Nat.add_sub_cancel]
    omega


/-- A frame-relative address lies in the range of a frame exactly when it is an address
of that frame. -/
theorem addr_in_frame (cfg : Config) (f g : Int) (x : Nat) (hx : x < cfg.PAGE_SIZE) :
    (f * cfg.PAGE_SIZE ≤ g * cfg.PAGE_SIZE + x ∧
      g * cfg.PAGE_SIZE + x < f * cfg.PAGE_SIZE + cfg.PAGE_SIZE) ↔ g = f := by
  have hx' : (x : Int) < cfg.PAGE_SIZE := by exact_mod_cast hx
  have hP := PAGE_SIZE_pos_int cfg
  constructor
  · rintro ⟨h1, h2⟩
    rcases lt_trichotomy g f with hlt | heq | hgt
    · have : (g + 1) * (cfg.PAGE_SIZE : Int) ≤ f * cfg.PAGE_SIZE :=
        mul_le_mul_of_nonneg_right (by omega) hP.le
      have h3 : (g + 1) * (cfg.PAGE_SIZE : Int) = g * cfg.PAGE_SIZE + cfg.PAGE_SIZE := by ring
      omega
    · exact heq
    · have : (f + 1) * (cfg.PAGE_SIZE : Int) ≤ g * cfg.PAGE_SIZE :=
        mul_le_mul_of_nonneg_right (by omega) hP.le
      have h3 : (f + 1) * (cfg.PAGE_SIZE : Int) = f * cfg.PAGE_SIZE + cfg.PAGE_SIZE := by ring
      omega
  · rintro rfl
    constructor <;> omega
/-! ## Walks and slots -/

theorem walkFrom_append (cfg : Config) (ram : Int → Int) (f : Int) (p1 p2 : List Nat) :
    walkFrom cfg ram f (p1 ++ p2) = (walkFrom cfg ram f p1).bind (fun g => walkFrom cfg ram g p2) := by
  induction p1 generalizing f with
  | nil => simp [walkFrom]
  | cons e es ih =>
    simp only [List.cons_append, walkFrom]
    split
    · simp
    · exact ih _

theorem walkFrom_snoc (cfg : Config) (ram : Int → Int) (f : Int) (p : List Nat) (e : Nat)
    (g : Int) :
    walkFrom cfg ram f (p ++ [e]) = some g ↔
      ∃ q, walkFrom cfg ram f p = some q ∧ ram (q * cfg.PAGE_SIZE + e) = g ∧ g ≠ 0 := by
  rw [walkFrom_append]
  cases h : walkFrom cfg ram f p with
  | none => simp
  | some q =>
    simp only [Option.some_bind, walkFrom, Option.some.injEq, exists_eq_left']
    by_cases hz : ram (q * cfg.PAGE_SIZE + e) = 0
    · simp only [hz, if_true]
      constructor
      · intro h'; cases h'
      · rintro ⟨h1, h2⟩; exact absurd h1.symm h2
    · simp only [hz, if_false, Option.some.injEq]
      constructor
      · intro h'; exact ⟨h', h' ▸ hz⟩
      · exact fun h' => h'.1

theorem ValidSlots_append (cfg : Config) (lvl : Nat) (p1 p2 : List Nat) :
    ValidSlots cfg lvl (p1 ++ p2) ↔
      ValidSlots cfg lvl p1 ∧ ValidSlots cfg (lvl + p1.length) p2 := by
  induction p1 generalizing lvl with
  | nil => simp [ValidSlots]
  | cons e es ih =>
    have hl : lvl + 1 + es.length = lvl + (es.length + 1) := by omega
    show (e < 2 ^ levelWidth cfg lvl ∧ ValidSlots cfg (lvl + 1) (es ++ p2)) ↔
      (e < 2 ^ levelWidth cfg lvl ∧ ValidSlots cfg (lvl + 1) es) ∧
        ValidSlots cfg (lvl + (es.length + 1)) p2
    rw [ih, hl, and_assoc]

theorem ValidPath_nil (cfg : Config) : ValidPath cfg [] :=
  ⟨Nat.zero_le _, trivial⟩

theorem ValidPath_of_append (cfg : Config) (p1 p2 : List Nat) (h : ValidPath cfg (p1 ++ p2)) :
    ValidPath cfg p1 := by
  obtain ⟨h1, h2⟩ := h
  rw [List.length_append] at h1
  exact ⟨by omega, ((ValidSlots_append cfg 0 p1 p2).1 h2).1⟩

theorem ValidPath_snoc (cfg : Config) (p : List Nat) (e : Nat) :
    ValidPath cfg (p ++ [e]) ↔
      ValidPath cfg p ∧ p.length < cfg.TABLES_DEPTH ∧ e < 2 ^ levelWidth cfg p.length := by
  unfold ValidPath
  rw [ValidSlots_append, List.length_append]
  simp only [List.length_singleton, ValidSlots, zero_add, and_true]
  constructor
  · rintro ⟨h1, h2, h3⟩; exact ⟨⟨by omega, h2⟩, by omega, h3⟩
  · rintro ⟨⟨h1, h2⟩, h3, h4⟩; exact ⟨by omega, h2, h4⟩

theorem pageFrom_append (cfg : Config) (lvl : Nat) (page : Int) (p1 p2 : List Nat) :
    pageFrom cfg lvl page (p1 ++ p2) =
      pageFrom cfg (lvl + p1.length) (pageFrom cfg lvl page p1) p2 := by
  induction p1 generalizing lvl page with
  | nil => simp [pageFrom]
  | cons e es ih =>
    have hl : lvl + 1 + es.length = lvl + (es.length + 1) := by omega
    show pageFrom cfg (lvl + 1) (toInt32 (toInt32 (page * 2 ^ levelWidth cfg lvl) + e)) (es ++ p2) =
      pageFrom cfg (lvl + (es.length + 1))
        (pageFrom cfg (lvl + 1) (toInt32 (toInt32 (page * 2 ^ levelWidth cfg lvl) + e)) es) p2
    rw [ih, hl]

theorem lastLink_snoc (cfg : Config) (ram : Int → Int) (f parent leg : Int) (p : List Nat)
    (e : Nat) (q : Int) (h : walkFrom cfg ram f p = some q) :
    lastLink cfg ram f parent leg (p ++ [e]) = (q, (e : Int)) := by
  induction p generalizing f parent leg with
  | nil =>
    simp only [walkFrom, Option.some.injEq] at h
    simp [lastLink, h]
  | cons x xs ih =>
    simp only [walkFrom] at h
    split at h
    · cases h
    · simp only [List.cons_append, lastLink]
      exact ih _ _ _ h

theorem EventAt_cons (cfg : Config) (ram : Int → Int) (lvl d : Nat) (leg0 page0 f parent0 : Int)
    (i : Nat) (path : List Nat) (g : Int) (ev : SearchEvent) :
    EventAt cfg ram lvl (d + 1) leg0 page0 f parent0 (i :: path) g ev ↔
      EventAt cfg ram (lvl + 1) d i (toInt32 (toInt32 (page0 * 2 ^ levelWidth cfg lvl) + i))
        (ram (f * cfg.PAGE_SIZE + i)) f path g ev := by
  have hl : lvl + (path.length + 1) = lvl + 1 + path.length := by omega
  simp only [EventAt, List.length_cons, pageFrom, lastLink, hl, add_left_inj,
    add_lt_add_iff_right]

theorem mem_events_iff (cfg : Config) (ram : Int → Int) (d : Nat) :
    ∀ (lvl : Nat) (leg0 page0 f parent0 : Int) (ev : SearchEvent),
      lvl + d = cfg.TABLES_DEPTH →
      (ev ∈ events cfg ram (get_subtable_sizes cfg) d leg0 page0 f parent0 ↔
        ∃ path g, ValidSlots cfg lvl path ∧ walkFrom cfg ram f path = some g ∧
          EventAt cfg ram lvl d leg0 page0 f parent0 path g ev) := by
  induction d with
  | zero =>
    intro lvl leg0 page0 f parent0 ev _
    simp only [events, List.mem_singleton]
    constructor
    · rintro rfl
      exact ⟨[], f, trivial, rfl, Or.inl ⟨rfl, rfl⟩⟩
    · rintro ⟨path, g, _, hw, hE⟩
      rcases hE with ⟨hlen, hev⟩ | ⟨hlen, _⟩
      · have hnil : path = [] := List.length_eq_zero.1 hlen
        subst hnil
        simp only [walkFrom, Option.some.injEq] at hw
        subst hw
        exact hev
      · exact absurd hlen (Nat.not_lt_zero _)
  | succ d ih =>
    intro lvl leg0 page0 f parent0 ev hD
    have hw : (get_subtable_sizes cfg).getD (cfg.TABLES_DEPTH - (d + 1)) 0 = levelWidth cfg lvl := by
      have : cfg.TABLES_DEPTH - (d + 1) = lvl := by omega
      rw [this]; rfl
    simp only [events, hw, List.mem_cons, List.mem_append, mem_eventsLoop, List.mem_range,
      Nat.one_shiftLeft]
    constructor
    · rintro (rfl | ⟨i, hi, hmem⟩ | hmem)
      · exact ⟨[], f, trivial, rfl, Or.inr ⟨Nat.succ_pos _, Or.inl rfl⟩⟩
      · unfold childEvents at hmem
        split at hmem
        · rename_i hz
          obtain ⟨path, g, hv, hwk, hE⟩ := (ih (lvl + 1) _ _ _ _ ev (by omega)).1 hmem
          refine ⟨i :: path, g, ⟨hi, hv⟩, ?_, (EventAt_cons cfg ram lvl d _ _ _ _ i path g ev).2 hE⟩
          simp only [walkFrom, hz, if_false]
          exact hwk
        · simp at hmem
      · split at hmem
        · rename_i he
          simp only [List.mem_singleton] at hmem
          refine ⟨[], f, trivial, rfl, Or.inr ⟨Nat.succ_pos _, Or.inr ⟨?_, hmem⟩⟩⟩
          simpa using he
        · simp at hmem
    · rintro ⟨path, g, hv, hwk, hE⟩
      cases path with
      | nil =>
        simp only [walkFrom, Option.some.injEq] at hwk
        subst hwk
        rcases hE with ⟨hlen, _⟩ | ⟨_, hev | ⟨he, hev⟩⟩
        · simp at hlen
        · exact Or.inl hev
        · right; right
          simp only [List.length_nil, add_zero] at he
          rw [he]
          simpa [lastLink] using hev
      | cons i path =>
        right; left
        obtain ⟨hi, hv'⟩ := hv
        simp only [walkFrom] at hwk
        split at hwk
        · cases hwk
        · rename_i hz
          refine ⟨i, hi, ?_⟩
          unfold childEvents
          rw [if_pos hz]
          exact (ih (lvl + 1) _ _ _ _ ev (by omega)).2
            ⟨path, g, hv', hwk, (EventAt_cons cfg ram lvl d _ _ _ _ i path g ev).1 hE⟩
/-! ## What the fold over the events records -/

theorem find_leaf_eq (cfg : Config) (tgt leg page frame parent : Int) (st : SearchState) :
    find_leaf cfg tgt leg page frame parent st =
      update_max frame
        (if cyclicDistance cfg tgt page > st.maximal_cyclical_distance then
          { st with
            maximal_cyclical_distance := cyclicDistance cfg tgt page
            maximal_cyclical_distance_frame_index := frame
            maximal_cyclical_distance_page_index := page
            parent_of_maximal_cyclical_distance := parent
            parent_leg_cyclical_index := leg }
        else st) := rfl

/-- The free-frame out-parameters after an event. -/
theorem absorb_free (cfg : Config) (tgt origin : Int) (st : SearchState) (ev : SearchEvent) :
    (absorb cfg tgt origin st ev).free = freeAfter origin st.free ev := by
  cases ev with
  | leaf f pg par leg =>
    simp only [absorb, find_leaf_eq, update_max, freeAfter, SearchState.free]
    split_ifs <;> rfl
  | enter f =>
    simp only [absorb, update_max, freeAfter, SearchState.free]
    split_ifs <;> rfl
  | emptyTable f par leg =>
    simp only [absorb, record_free, freeAfter, SearchState.free]
    split_ifs <;> rfl

/-- The search records the last empty table other than the origin frame, if there is one. -/
theorem foldl_absorb_free (cfg : Config) (tgt origin : Int) (evs : List SearchEvent)
    (st : SearchState) :
    ((evs.foldl (absorb cfg tgt origin) st).free = st.free ∧
      ∀ f par leg, SearchEvent.emptyTable f par leg ∈ evs → f = origin) ∨
    ∃ l1 l2 f par leg, evs = l1 ++ SearchEvent.emptyTable f par leg :: l2 ∧ f ≠ origin ∧
      (∀ f2 par2 leg2, SearchEvent.emptyTable f2 par2 leg2 ∈ l2 → f2 = origin) ∧
      (evs.foldl (absorb cfg tgt origin) st).free = (f, par, leg) := by
  induction evs using List.reverseRecOn with
  | nil => left; simp
  | append_singleton l ev ih =>
    rw [List.foldl_append, List.foldl_cons, List.foldl_nil, absorb_free]
    by_cases hev : ∃ f par leg, ev = SearchEvent.emptyTable f par leg ∧ f ≠ origin
    · obtain ⟨f, par, leg, rfl, hf⟩ := hev
      right
      refine ⟨l, [], f, par, leg, rfl, hf, by simp, ?_⟩
      simp [freeAfter, hf]
    · have hnew : ∀ f par leg, SearchEvent.emptyTable f par leg = ev → f = origin := by
        intro f par leg h
        by_contra hne
        exact hev ⟨f, par, leg, h.symm, hne⟩
      have hkeep : ∀ (x : Int × Int × Int), freeAfter origin x ev = x := by
        intro x
        cases ev with
        | emptyTable f par leg => simp [freeAfter, hnew f par leg rfl]
        | leaf _ _ _ _ => rfl
        | enter _ => rfl
      rw [hkeep]
      rcases ih with ⟨h1, h2⟩ | ⟨l1, l2, f, par, leg, hl, hf, h2, h3⟩
      · left
        refine ⟨h1, ?_⟩
        intro f par leg hmem
        rcases List.mem_append.1 hmem with h | h
        · exact h2 f par leg h
        · exact hnew f par leg (List.mem_singleton.1 h)
      · right
        refine ⟨l1, l2 ++ [ev], f, par, leg, by rw [hl]; simp, hf, ?_, h3⟩
        intro f2 par2 leg2 hmem
        rcases List.mem_append.1 hmem with h | h
        · exact h2 f2 par2 leg2 h
        · exact hnew f2 par2 leg2 (List.mem_singleton.1 h)

theorem separate_address_loop_acc (cfg : Config) (n address : Nat) (entries : List Nat) :
    separate_address_loop cfg n address entries =
      separate_address_loop cfg n address [] ++ entries := by
  induction n generalizing address entries with
  | zero => simp [separate_address_loop]
  | succ n ih =>
    simp only [separate_address_loop]
    rw [ih, ih (address >>> cfg.OFFSET_WIDTH) [_]]
    simp

/-- One more level extracts one more group of low bits, stored last. -/
theorem separate_address_loop_succ (cfg : Config) (n address : Nat) :
    separate_address_loop cfg (n + 1) address [] =
      separate_address_loop cfg n (address / 2 ^ cfg.OFFSET_WIDTH) [] ++
        [address % 2 ^ cfg.OFFSET_WIDTH] := by
  simp only [separate_address_loop]
  rw [separate_address_loop_acc, Nat.shiftRight_eq_div_pow, Nat.one_shiftLeft,
    Nat.and_pow_two_sub_one_eq_mod]

theorem separate_address_loop_length (cfg : Config) (n address : Nat) :
    (separate_address_loop cfg n address []).length = n := by
  induction n generalizing address with
  | zero => rfl
  | succ n ih => rw [separate_address_loop_succ, List.length_append, ih]; rfl

theorem separate_address_length (cfg : Config) (address : Nat) :
    (separate_address cfg address).length = cfg.TABLES_DEPTH :=
  separate_address_loop_length cfg _ _

theorem levelWidth_of_pos (cfg : Config) (lvl : Nat) (h0 : 0 < lvl) (h : lvl < cfg.TABLES_DEPTH) :
    levelWidth cfg lvl = cfg.OFFSET_WIDTH := by
  obtain ⟨n, rfl⟩ := Nat.exists_eq_succ_of_ne_zero (Nat.pos_iff_ne_zero.1 h0)
  exact levelWidth_succ cfg n h

/-- A frame linked at a non-empty path is not the root frame. -/
theorem TreeInv_ne_zero {cfg : Config} {ram : Int → Int} {k : Int} (hT : TreeInv cfg ram k)
    (p : List Nat) (e : Nat) (F : Int) (hp : ValidPath cfg (p ++ [e]))
    (hF : walkFrom cfg ram 0 (p ++ [e]) = some F) : 1 ≤ F := by
  have hb := hT.bound _ F hp hF
  have hne : F ≠ 0 := by
    rintro rfl
    have := hT.inj _ [] 0 hp (ValidPath_nil cfg) hF rfl
    simp at this
  omega

theorem mem_root_events_emptyTable (cfg : Config) (ram : Int → Int) (F P leg : Int) :
    SearchEvent.emptyTable F P leg ∈
        events cfg ram (get_subtable_sizes cfg) cfg.TABLES_DEPTH (-1) 0 0 (-1) ↔
      ∃ p, ValidPath cfg p ∧ p.length < cfg.TABLES_DEPTH ∧ walkFrom cfg ram 0 p = some F ∧
        tableEmpty cfg ram (levelWidth cfg p.length) F = true ∧
        (P, leg) = lastLink cfg ram 0 (-1) (-1) p := by
  rw [mem_events_iff cfg ram cfg.TABLES_DEPTH 0 _ _ _ _ _ (Nat.zero_add _)]
  constructor
  · rintro ⟨p, g, hv, hw, ⟨_, hev⟩ | ⟨hlen, hev | ⟨he, hev⟩⟩⟩
    · cases hev
    · cases hev
    · simp only [SearchEvent.emptyTable.injEq] at hev
      obtain ⟨rfl, rfl, rfl⟩ := hev
      rw [Nat.zero_add] at he
      exact ⟨p, ⟨hlen.le, hv⟩, hlen, hw, he, rfl⟩
  · rintro ⟨p, hp, hlen, hw, he, hl⟩
    refine ⟨p, F, hp.2, hw, Or.inr ⟨hlen, Or.inr ⟨by rw [Nat.zero_add]; exact he, ?_⟩⟩⟩
    rw [← hl]

theorem tableEmpty_iff (cfg : Config) (ram : Int → Int) (width : Nat) (F : Int) :
    tableEmpty cfg ram width F = true ↔
      ∀ i : Nat, i < 2 ^ width → ram (F * cfg.PAGE_SIZE + i) = 0 := by
  simp [tableEmpty, Nat.one_shiftLeft]

theorem lastLink_nonempty (cfg : Config) (ram : Int → Int) (p : List Nat) (hne : p ≠ [])
    (F : Int) (hF : walkFrom cfg ram 0 p = some F) (parent leg : Int) :
    ∃ (p0 : List Nat) (e : Nat) (P : Int), p = p0 ++ [e] ∧ walkFrom cfg ram 0 p0 = some P ∧
      lastLink cfg ram 0 parent leg p = (P, (e : Int)) := by
  rcases List.eq_nil_or_concat p with h | ⟨p0, e, h⟩
  · exact absurd h hne
  · rw [List.concat_eq_append] at h
    subst h
    obtain ⟨P, hP, _⟩ := (walkFrom_snoc cfg ram 0 p0 e F).1 hF
    exact ⟨p0, e, P, rfl, hP, lastLink_snoc cfg ram 0 parent leg p0 e P hP⟩

theorem swap_search_spec (cfg : Config) (origin : Int) (tgt : Nat) (pm : PhysicalMemory) :
    (swap_search cfg origin tgt (get_subtable_sizes cfg) pm).1 =
      (events cfg pm.RAM (get_subtable_sizes cfg) cfg.TABLES_DEPTH (-1) 0 0 (-1)).foldl
        (absorb cfg (toInt32 (tgt : Int)) origin) SearchState.init ∧
    ReadsOnly pm (swap_search cfg origin tgt (get_subtable_sizes cfg) pm).2 :=
  find_frame_to_evict_spec cfg (toInt32 (tgt : Int)) (get_subtable_sizes cfg) origin
    cfg.TABLES_DEPTH (-1) 0 0 (-1) SearchState.init pm

/-- In a well-formed tree the root is not an empty table unless it is the origin. -/
theorem root_not_empty (cfg : Config) (ram : Int → Int) (pc : List Nat) (cur : Int)
    (hpc : ValidPath cfg pc) (hc : walkFrom cfg ram 0 pc = some cur) (hcur : cur ≠ 0) :
    tableEmpty cfg ram (levelWidth cfg 0) 0 ≠ true := by
  cases pc with
  | nil =>
    simp only [walkFrom, Option.some.injEq] at hc
    exact absurd hc.symm hcur
  | cons x rest =>
    intro he
    rw [tableEmpty_iff] at he
    have hx := he x hpc.2.1
    simp only [walkFrom, hx, if_true, reduceCtorEq] at hc

theorem empty_frame_loop (cfg : Config) (F : Int) (pm : PhysicalMemory) (n : Nat) :
    ((List.range n).foldl (fun pm (i : Nat) => PMwrite pm (F * cfg.PAGE_SIZE + i) 0) pm).RAM =
        (fun a => if F * cfg.PAGE_SIZE ≤ a ∧ a < F * cfg.PAGE_SIZE + n then 0 else pm.RAM a) ∧
      ((List.range n).foldl (fun pm (i : Nat) => PMwrite pm (F * cfg.PAGE_SIZE + i) 0) pm).swapFile =
        pm.swapFile ∧
      TraceExt (fun op => op.isWrite = true) pm
        ((List.range n).foldl (fun pm (i : Nat) => PMwrite pm (F * cfg.PAGE_SIZE + i) 0) pm) := by
  induction n with
  | zero =>
    refine ⟨?_, rfl, TraceExt_refl _ _⟩
    funext a
    simp only [List.range_zero, List.foldl_nil, Nat.cast_zero, add_zero]
    rw [if_neg (by omega)]
  | succ n ih =>
    obtain ⟨h1, h2, h3⟩ := ih
    rw [List.range_succ, List.foldl_append, List.foldl_cons, List.foldl_nil]
    refine ⟨?_, ?_, ?_⟩
    · rw [PMwrite_RAM, h1]
      funext a
      push_cast
      by_cases ha : a = F * cfg.PAGE_SIZE + n
      · rw [if_pos ha, if_pos (by omega)]
      · rw [if_neg ha]
        by_cases hb : F * cfg.PAGE_SIZE ≤ a ∧ a < F * cfg.PAGE_SIZE + n
        · rw [if_pos hb, if_pos (by omega)]
        · rw [if_neg hb, if_neg (by omega)]
    · rw [PMwrite_swapFile, h2]
    · exact TraceExt_trans h3 (TraceExt_cons (PMOp.write _ 0) rfl (PMwrite_trace _ _ _))

theorem empty_frame_spec (cfg : Config) (F : Int) (pm : PhysicalMemory) :
    (empty_frame cfg F pm).RAM =
        (fun a => if F * cfg.PAGE_SIZE ≤ a ∧ a < F * cfg.PAGE_SIZE + cfg.PAGE_SIZE then 0
          else pm.RAM a) ∧
      (empty_frame cfg F pm).swapFile = pm.swapFile ∧
      TraceExt (fun op => op.isWrite = true) pm (empty_frame cfg F pm) :=
  empty_frame_loop cfg F pm cfg.PAGE_SIZE
theorem maybe_empty_frame (cfg : Config) (F : Int) (pm1 : PhysicalMemory) (c : Prop)
    [Decidable c] :
    (∀ a, ¬ (F * cfg.PAGE_SIZE ≤ a ∧ a < F * cfg.PAGE_SIZE + cfg.PAGE_SIZE) →
      (if c then empty_frame cfg F pm1 else pm1).RAM a = pm1.RAM a) ∧
    (c → ∀ x : Nat, x < cfg.PAGE_SIZE →
      (if c then empty_frame cfg F pm1 else pm1).RAM (F * cfg.PAGE_SIZE + x) = 0) ∧
    (if c then empty_frame cfg F pm1 else pm1).swapFile = pm1.swapFile ∧
    TraceExt (fun op => op.isWrite = true) pm1 (if c then empty_frame cfg F pm1 else pm1) := by
  obtain ⟨h1, h2, h3⟩ := empty_frame_spec cfg F pm1
  by_cases hc : c
  · simp only [hc, if_true]
    refine ⟨?_, ?_, h2, h3⟩
    · intro a ha
      rw [h1]
      exact if_neg ha
    · intro _ x hx
      have hx' : (x : Int) < cfg.PAGE_SIZE := by exact_mod_cast hx
      rw [h1]
      exact if_pos (by constructor <;> omega)
  · simp only [hc, if_false, false_implies, implies_true, true_and]
    exact TraceExt_refl _ _

theorem get_PMaddress_step_hit (cfg : Config) (va : Nat) (entries sizes : List Nat)
    (s : PhysicalMemory × Int) (lvl : Nat)
    (h : s.1.RAM (s.2 * cfg.PAGE_SIZE + entries.getD lvl 0) ≠ 0) :
    get_PMaddress_step cfg va entries sizes s lvl =
      ((PMread s.1 (s.2 * cfg.PAGE_SIZE + entries.getD lvl 0)).2,
        s.1.RAM (s.2 * cfg.PAGE_SIZE + entries.getD lvl 0)) := by
  unfold get_PMaddress_step
  simp only [PMread_fst]
  rw [if_neg h]

theorem get_PMaddress_step_miss (cfg : Config) (va : Nat) (entries sizes : List Nat)
    (s : PhysicalMemory × Int) (lvl : Nat)
    (h : s.1.RAM (s.2 * cfg.PAGE_SIZE + entries.getD lvl 0) = 0) :
    get_PMaddress_step cfg va entries sizes s lvl =
      (PMwrite
        (if lvl + 1 ≠ cfg.TABLES_DEPTH then
          empty_frame cfg
            (swap_frame cfg s.2 (va >>> cfg.OFFSET_WIDTH) sizes
              (PMread s.1 (s.2 * cfg.PAGE_SIZE + entries.getD lvl 0)).2).1
            (swap_frame cfg s.2 (va >>> cfg.OFFSET_WIDTH) sizes
              (PMread s.1 (s.2 * cfg.PAGE_SIZE + entries.getD lvl 0)).2).2
        else (swap_frame cfg s.2 (va >>> cfg.OFFSET_WIDTH) sizes
              (PMread s.1 (s.2 * cfg.PAGE_SIZE + entries.getD lvl 0)).2).2)
        (s.2 * cfg.PAGE_SIZE + entries.getD lvl 0)
        (swap_frame cfg s.2 (va >>> cfg.OFFSET_WIDTH) sizes
              (PMread s.1 (s.2 * cfg.PAGE_SIZE + entries.getD lvl 0)).2).1,
        (swap_frame cfg s.2 (va >>> cfg.OFFSET_WIDTH) sizes
              (PMread s.1 (s.2 * cfg.PAGE_SIZE + entries.getD lvl 0)).2).1) := by
  unfold get_PMaddress_step
  simp only [PMread_fst]
  rw [if_pos h]

theorem get_PMaddress_loop_succ (cfg : Config) (va n : Nat) (pm : PhysicalMemory) :
    get_PMaddress_loop cfg va (n + 1) pm =
      get_PMaddress_step cfg va
        (separate_address cfg ((va >>> cfg.OFFSET_WIDTH) &&&
          ((1 <<< (cfg.VIRTUAL_ADDRESS_WIDTH - cfg.OFFSET_WIDTH)) - 1)))
        (get_subtable_sizes cfg) (get_PMaddress_loop cfg va n pm) n := by
  simp only [get_PMaddress_loop, List.range_succ, List.foldl_append, List.foldl_cons,
    List.foldl_nil]

theorem runOps_reachable (cfg : Config) (ops : List VMOp)
    (hops : ∀ op ∈ ops, op.addr < cfg.VIRTUAL_MEMORY_SIZE) :
    ∀ pm, Reachable cfg pm → Reachable cfg (runOps cfg ops pm) := by
  induction ops with
  | nil => intro pm h; exact h
  | cons op rest ih =>
    intro pm hR
    simp only [runOps, List.foldl_cons]
    apply ih (fun o ho => hops o (List.mem_cons_of_mem _ ho))
    have ha := hops op (List.mem_cons_self _ _)
    cases op with
    | read a value => exact Reachable.read pm a value hR ha
    | write a value => exact Reachable.write pm a value hR ha

/-! ## The calls of `swap_frame` made by the translator -/

theorem eventsLoop_pairwise (R : SearchEvent → SearchEvent → Prop)
    (child : Nat → List SearchEvent) (l : List Nat) (hl : l.Pairwise (· < ·))
    (hchild : ∀ i ∈ l, (child i).Pairwise R)
    (hcross : ∀ i ∈ l, ∀ j ∈ l, i < j → ∀ e1 ∈ child i, ∀ e2 ∈ child j, R e1 e2) :
    (eventsLoop child l).Pairwise R := by
  induction l with
  | nil => simp [eventsLoop]
  | cons i rest ih =>
    rw [List.pairwise_cons] at hl
    simp only [eventsLoop]
    rw [List.pairwise_append]
    refine ⟨hchild i (List.mem_cons_self _ _), ?_, ?_⟩
    · exact ih hl.2 (fun j hj => hchild j (List.mem_cons_of_mem _ hj))
        (fun a ha b hb hab => hcross a (List.mem_cons_of_mem _ ha) b (List.mem_cons_of_mem _ hb) hab)
    · intro e1 he1 e2 he2
      obtain ⟨j, hj, hmem⟩ := mem_eventsLoop.1 he2
      exact hcross i (List.mem_cons_self _ _) j (List.mem_cons_of_mem _ hj) (hl.1 j hj) e1 he1 e2 hmem

theorem swap_frame_trace (cfg : Config) (origin : Int) (tgt : Nat) (sizes : List Nat)
    (pm : PhysicalMemory) :
    TraceExt (fun op => op.isRestore = false) pm (swap_frame cfg origin tgt sizes pm).2 := by
  have hro : ReadsOnly pm (swap_search cfg origin tgt sizes pm).2 :=
    (find_frame_to_evict_spec cfg (toInt32 (tgt : Int)) sizes origin cfg.TABLES_DEPTH (-1) 0 0
      (-1) SearchState.init pm).2
  have h0 : TraceExt (fun op => op.isRestore = false) pm (swap_search cfg origin tgt sizes pm).2 :=
    ReadsOnly_traceExt hro (fun op h => by cases op <;> simp_all [PMOp.isRead, PMOp.isRestore])
  unfold swap_frame
  simp only
  split_ifs
  · exact TraceExt_trans h0 (TraceExt_cons (PMOp.write _ 0) rfl (PMwrite_trace _ _ _))
  · exact h0
  · exact TraceExt_trans (TraceExt_trans h0
      (TraceExt_cons (PMOp.evict _ _) rfl (PMevict_trace cfg _ _ _)))
      (TraceExt_cons (PMOp.write _ 0) rfl (PMwrite_trace _ _ _))

theorem TraceExt_mono {P Q : PMOp → Prop} {pm1 pm2 : PhysicalMemory} (h : TraceExt P pm1 pm2)
    (hPQ : ∀ op, P op → Q op) : TraceExt Q pm1 pm2 := by
  obtain ⟨l, hl, hp⟩ := h
  exact ⟨l, hl, fun op hop => hPQ op (hp op hop)⟩

theorem get_PMaddress_step_trace (cfg : Config) (va : Nat) (entries sizes : List Nat)
    (s : PhysicalMemory × Int) (lvl : Nat) :
    TraceExt (fun op => op.isRestore = false) s.1
      (get_PMaddress_step cfg va entries sizes s lvl).1 := by
  have hrd : TraceExt (fun op => op.isRestore = false) s.1
      (PMread s.1 (s.2 * cfg.PAGE_SIZE + entries.getD lvl 0)).2 :=
    TraceExt_cons (PMOp.read _) rfl (PMread_trace _ _)
  by_cases hz : s.1.RAM (s.2 * cfg.PAGE_SIZE + entries.getD lvl 0) = 0
  · rw [get_PMaddress_step_miss cfg va entries sizes s lvl hz]
    have hsw := swap_frame_trace cfg s.2 (va >>> cfg.OFFSET_WIDTH) sizes
      (PMread s.1 (s.2 * cfg.PAGE_SIZE + entries.getD lvl 0)).2
    have hme := (maybe_empty_frame cfg
      (swap_frame cfg s.2 (va >>> cfg.OFFSET_WIDTH) sizes
        (PMread s.1 (s.2 * cfg.PAGE_SIZE + entries.getD lvl 0)).2).1
      (swap_frame cfg s.2 (va >>> cfg.OFFSET_WIDTH) sizes
        (PMread s.1 (s.2 * cfg.PAGE_SIZE + entries.getD lvl 0)).2).2
      (lvl + 1 ≠ cfg.TABLES_DEPTH)).2.2.2
    exact TraceExt_trans (TraceExt_trans (TraceExt_trans hrd hsw)
      (TraceExt_mono hme (fun op h => by cases op <;> simp_all [PMOp.isWrite, PMOp.isRestore])))
      (TraceExt_cons (PMOp.write _ _) rfl (PMwrite_trace _ _ _))
  · rw [get_PMaddress_step_hit cfg va entries sizes s lvl hz]
    exact hrd

theorem get_PMaddress_loop_trace (cfg : Config) (va n : Nat) (pm : PhysicalMemory) :
    TraceExt (fun op => op.isRestore = false) pm (get_PMaddress_loop cfg va n pm).1 := by
  induction n with
  | zero => exact TraceExt_refl _ _
  | succ n ih =>
    rw [get_PMaddress_loop_succ]
    exact TraceExt_trans ih (get_PMaddress_step_trace cfg va _ _ _ n)

/-- The masked page index of an in-range address is the address shifted by the offset
width, for every configuration. -/
theorem page_index_eq_shift (cfg : Config) (a : Nat) (ha : a < cfg.VIRTUAL_MEMORY_SIZE) :
    (a >>> cfg.OFFSET_WIDTH) &&&
      ((1 <<< (cfg.VIRTUAL_ADDRESS_WIDTH - cfg.OFFSET_WIDTH)) - 1) = a >>> cfg.OFFSET_WIDTH := by
  rw [Nat.one_shiftLeft, Nat.and_pow_two_sub_one_eq_mod, Nat.shiftRight_eq_div_pow]
  apply Nat.mod_eq_of_lt
  unfold Config.VIRTUAL_MEMORY_SIZE at ha
  rw [Nat.div_lt_iff_lt_mul (by positivity), ← pow_add]
  refine lt_of_lt_of_le ha (Nat.pow_le_pow_right (by norm_num) (by omega))

/-! ## Further lemmas on the codec and the search -/

/-- Entry `j` of the `n` entries stored by the loop of `separate_address` holds the bits of
the address from position `OFFSET_WIDTH * (n - 1 - j)`. -/
theorem separate_address_loop_getD (cfg : Config) (n : Nat) :
    ∀ (address j : Nat), j < n →
      (separate_address_loop cfg n address []).getD j 0 =
        (address >>> (cfg.OFFSET_WIDTH * (n - 1 - j))) % 2 ^ cfg.OFFSET_WIDTH := by
  induction n with
  | zero => intro address j hj; omega
  | succ n ih =>
    intro address j hj
    rw [separate_address_loop_succ]
    have hlen := separate_address_loop_length cfg n (address / 2 ^ cfg.OFFSET_WIDTH)
    rcases Nat.lt_succ_iff_lt_or_eq.1 hj with hlt | heq
    · rw [List.getD_append _ _ _ _ (by omega), ih _ j hlt]
      have e1 : n + 1 - 1 - j = (n - 1 - j) + 1 := by omega
      rw [e1, Nat.mul_succ, Nat.shiftRight_eq_div_pow, Nat.shiftRight_eq_div_pow,
        Nat.div_div_eq_div_mul, ← Nat.pow_add, Nat.add_comm]
    · subst heq
      rw [List.getD_append_right _ _ _ _ (by omega)]
      simp [hlen, Nat.shiftRight_eq_div_pow]


/-- The entries stored by `n` iterations of the loop of `separate_address`, weighted by
their positions, add up to the low `OFFSET_WIDTH * n` bits of the address. -/
theorem separate_address_loop_sum (cfg : Config) (n : Nat) :
    ∀ address : Nat,
      Finset.sum (Finset.range n) (fun j =>
        (separate_address_loop cfg n address []).getD j 0 *
          2 ^ (cfg.OFFSET_WIDTH * (n - 1 - j))) = address % 2 ^ (cfg.OFFSET_WIDTH * n) := by
  induction n with
  | zero => intro address; simp [Nat.mod_one]
  | succ n ih =>
    intro address
    rw [Finset.sum_range_succ, separate_address_loop_succ]
    have hlen := separate_address_loop_length cfg n (address / 2 ^ cfg.OFFSET_WIDTH)
    have hlast : (separate_address_loop cfg n (address / 2 ^ cfg.OFFSET_WIDTH) [] ++
        [address % 2 ^ cfg.OFFSET_WIDTH]).getD n 0 = address % 2 ^ cfg.OFFSET_WIDTH := by
      rw [List.getD_append_right _ _ _ _ (by omega)]
      simp [hlen]
    rw [hlast]
    have hsum : Finset.sum (Finset.range n) (fun j =>
        (separate_address_loop cfg n (address / 2 ^ cfg.OFFSET_WIDTH) [] ++
          [address % 2 ^ cfg.OFFSET_WIDTH]).getD j 0 *
          2 ^ (cfg.OFFSET_WIDTH * (n + 1 - 1 - j))) =
        2 ^ cfg.OFFSET_WIDTH * Finset.sum (Finset.range n) (fun j =>
          (separate_address_loop cfg n (address / 2 ^ cfg.OFFSET_WIDTH) []).getD j 0 *
            2 ^ (cfg.OFFSET_WIDTH * (n - 1 - j))) := by
      rw [Finset.mul_sum]
      apply Finset.sum_congr rfl
      intro j hj
      have hj' : j < n := Finset.mem_range.1 hj
      rw [List.getD_append _ _ _ _ (by omega)]
      have e1 : n + 1 - 1 - j = (n - 1 - j) + 1 := by omega
      rw [e1, Nat.mul_succ, Nat.pow_add]
      ring
    rw [hsum, ih]
    have e2 : cfg.OFFSET_WIDTH * (n + 1 - 1 - n) = 0 := by simp
    rw [e2, Nat.pow_zero, Nat.mul_one]
    rw [Nat.mul_succ, Nat.add_comm (cfg.OFFSET_WIDTH * n), Nat.pow_add, Nat.mod_mul]
    omega


/-- A page index fits in `TABLES_DEPTH` entries of `OFFSET_WIDTH` bits. -/
theorem NUM_PAGES_le_pow (cfg : Config) (h1 : 1 ≤ cfg.OFFSET_WIDTH) :
    cfg.NUM_PAGES ≤ 2 ^ (cfg.OFFSET_WIDTH * cfg.TABLES_DEPTH) := by
  unfold Config.NUM_PAGES Config.TABLES_DEPTH
  apply Nat.pow_le_pow_right (by decide)
  have h := Nat.div_add_mod (cfg.VIRTUAL_ADDRESS_WIDTH - cfg.OFFSET_WIDTH + (cfg.OFFSET_WIDTH - 1))
    cfg.OFFSET_WIDTH
  have hm := Nat.mod_lt (cfg.VIRTUAL_ADDRESS_WIDTH - cfg.OFFSET_WIDTH + (cfg.OFFSET_WIDTH - 1))
    (show 0 < cfg.OFFSET_WIDTH by omega)
  omega


/-- An empty table met by the search below a frame of the tree is reached from the root
along a path that extends the path of that frame. -/
theorem emptyTable_event_path (cfg : Config) (ram : Int → Int) (d lvl : Nat)
    (hD : lvl + d = cfg.TABLES_DEPTH) (leg0 page0 f parent0 : Int) (pre : List Nat)
    (hlen : pre.length = lvl) (hpre : ValidPath cfg pre) (hw : walkFrom cfg ram 0 pre = some f)
    (F P l : Int)
    (hmem : SearchEvent.emptyTable F P l ∈
      events cfg ram (get_subtable_sizes cfg) d leg0 page0 f parent0) :
    ∃ q, ValidPath cfg (pre ++ q) ∧ walkFrom cfg ram 0 (pre ++ q) = some F := by
  obtain ⟨path, g, hvs, hwalk, hE⟩ :=
    (mem_events_iff cfg ram d lvl leg0 page0 f parent0 _ hD).1 hmem
  have hg : g = F ∧ path.length < d := by
    rcases hE with ⟨_, h⟩ | ⟨hl, h | ⟨_, h⟩⟩
    · simp at h
    · simp at h
    · simp only [SearchEvent.emptyTable.injEq] at h
      exact ⟨h.1.symm, hl⟩
  obtain ⟨rfl, hpl⟩ := hg
  refine ⟨path, ⟨?_, ?_⟩, ?_⟩
  · rw [List.length_append]; omega
  · rw [ValidSlots_append]
    refine ⟨hpre.2, ?_⟩
    rw [hlen, Nat.zero_add]
    exact hvs
  · rw [walkFrom_append, hw]
    exact hwalk

/-- In a tree in which a frame is reached along one path only, the search meets the empty
tables in the order of their paths. -/
theorem events_empty_sorted (cfg : Config) (ram : Int → Int)
    (hinj : ∀ p1 p2 f, ValidPath cfg p1 → ValidPath cfg p2 → walkFrom cfg ram 0 p1 = some f →
      walkFrom cfg ram 0 p2 = some f → p1 = p2) (d : Nat) :
    ∀ (lvl : Nat) (leg0 page0 f parent0 : Int) (pre : List Nat), lvl + d = cfg.TABLES_DEPTH →
      pre.length = lvl → ValidPath cfg pre → walkFrom cfg ram 0 pre = some f →
      (events cfg ram (get_subtable_sizes cfg) d leg0 page0 f parent0).Pairwise
        (EmptyBefore cfg ram) := by
  induction d with
  | zero =>
    intro lvl leg0 page0 f parent0 pre _ _ _ _
    simp [events]
  | succ d ih =>
    intro lvl leg0 page0 f parent0 pre hD hlen hpre hwpre
    have hw : (get_subtable_sizes cfg).getD (cfg.TABLES_DEPTH - (d + 1)) 0 = levelWidth cfg lvl := by
      have : cfg.TABLES_DEPTH - (d + 1) = lvl := by omega
      rw [this]; rfl
    have hchildpath : ∀ i, i ∈ List.range (1 <<< levelWidth cfg lvl) →
        ram (f * cfg.PAGE_SIZE + i) ≠ 0 →
        ValidPath cfg (pre ++ [i]) ∧
          walkFrom cfg ram 0 (pre ++ [i]) = some (ram (f * cfg.PAGE_SIZE + i)) := by
      intro i hi hne
      rw [List.mem_range, Nat.shiftLeft_eq, Nat.one_mul] at hi
      refine ⟨(ValidPath_snoc cfg pre i).2 ⟨hpre, by omega, by rw [hlen]; exact hi⟩, ?_⟩
      exact (walkFrom_snoc cfg ram 0 pre i _).2 ⟨f, hwpre, rfl, hne⟩
    simp only [events, hw]
    rw [List.pairwise_cons]
    constructor
    · intro e _ F1 P1 l1 F2 P2 l2 p1 p2 h1
      simp at h1
    · rw [List.pairwise_append]
      refine ⟨?_, ?_, ?_⟩
      · apply eventsLoop_pairwise (EmptyBefore cfg ram) _ _ (List.pairwise_lt_range _)
        · intro i hi
          unfold childEvents
          split
          · rename_i hne
            obtain ⟨hvi, hwi⟩ := hchildpath i hi hne
            exact ih (lvl + 1) _ _ _ _ (pre ++ [i]) (by omega) (by simp [hlen]) hvi hwi
          · exact List.Pairwise.nil
        · intro i hi j hj hij e1 he1 e2 he2 F1 P1 l1 F2 P2 l2 p1 p2 h1 h2 hp1 hp2 hw1 hw2
          unfold childEvents at he1 he2
          split at he1
          · split at he2
            · rename_i hnei hnej
              obtain ⟨hvi, hwi⟩ := hchildpath i hi hnei
              obtain ⟨hvj, hwj⟩ := hchildpath j hj hnej
              subst h1 h2
              obtain ⟨q1, hq1, hqw1⟩ := emptyTable_event_path cfg ram d (lvl + 1) (by omega)
                _ _ _ _ (pre ++ [i]) (by simp [hlen]) hvi hwi F1 P1 l1 he1
              obtain ⟨q2, hq2, hqw2⟩ := emptyTable_event_path cfg ram d (lvl + 1) (by omega)
                _ _ _ _ (pre ++ [j]) (by simp [hlen]) hvj hwj F2 P2 l2 he2
              have e1 := hinj _ _ _ hp1 hq1 hw1 hqw1
              have e2 := hinj _ _ _ hp2 hq2 hw2 hqw2
              exact ⟨pre, i, j, q1, q2, by rw [e1]; simp, by rw [e2]; simp, hij⟩
            · simp at he2
          · simp at he1
      · split
        · simp
        · simp
      · intro e1 he1 e2 he2
        split at he2
        · rename_i hempty
          obtain ⟨i, hi, hmem⟩ := mem_eventsLoop.1 he1
          unfold childEvents at hmem
          have hz := (tableEmpty_iff cfg ram _ f).1 hempty i (by
            rw [List.mem_range, Nat.shiftLeft_eq, Nat.one_mul] at hi
            exact hi)
          rw [if_neg (by simp [hz])] at hmem
          simp at hmem
        · simp at he2

/-- The tree of `twoEmptyStore` is well formed, with the frames `0, 1, 2`. -/
theorem twoEmptyStore_tree : TreeInv twoLevelConfig twoEmptyStore.RAM 2 := by
  have hpaths : ∀ p, ValidPath twoLevelConfig p →
      p = [] ∨ (∃ a, a < 4 ∧ p = [a]) ∨ (∃ a b, a < 4 ∧ b < 4 ∧ p = [a, b]) := by
    intro p hp
    obtain ⟨hl, hs⟩ := hp
    have hD : twoLevelConfig.TABLES_DEPTH = 2 := by decide
    have w0 : levelWidth twoLevelConfig 0 = 2 := by decide
    have w1 : levelWidth twoLevelConfig 1 = 2 := by decide
    rw [hD] at hl
    match p, hl, hs with
    | [], _, _ => exact Or.inl rfl
    | [a], _, hs =>
      simp only [ValidSlots, w0] at hs
      exact Or.inr (Or.inl ⟨a, by omega, rfl⟩)
    | [a, b], _, hs =>
      simp only [ValidSlots, w0, w1] at hs
      exact Or.inr (Or.inr ⟨a, b, by omega, by omega, rfl⟩)
    | _ :: _ :: _ :: _, hl, _ => simp at hl
  have h1 : ∀ a, a < 4 → walkFrom twoLevelConfig twoEmptyStore.RAM 0 [a] =
      if a = 0 then some 1 else if a = 1 then some 2 else none := by decide
  have h2 : ∀ a, a < 4 → ∀ b, b < 4 →
      walkFrom twoLevelConfig twoEmptyStore.RAM 0 [a, b] = none := by decide
  have hwalk : ∀ p f, ValidPath twoLevelConfig p →
      walkFrom twoLevelConfig twoEmptyStore.RAM 0 p = some f →
      (p = [] ∧ f = 0) ∨ (p = [0] ∧ f = 1) ∨ (p = [1] ∧ f = 2) := by
    intro p f hp hw
    rcases hpaths p hp with rfl | ⟨a, ha, rfl⟩ | ⟨a, b, ha, hb, rfl⟩
    · simp only [walkFrom, Option.some.injEq] at hw
      exact Or.inl ⟨rfl, hw.symm⟩
    · rw [h1 a ha] at hw
      split_ifs at hw with e0 e1
      · subst e0
        exact Or.inr (Or.inl ⟨rfl, (Option.some.inj hw).symm⟩)
      · subst e1
        exact Or.inr (Or.inr ⟨rfl, (Option.some.inj hw).symm⟩)
    · rw [h2 a ha b hb] at hw
      simp at hw
  refine ⟨?_, ?_, ?_, by decide⟩
  · intro p f hp hw
    rcases hwalk p f hp hw with ⟨_, rfl⟩ | ⟨_, rfl⟩ | ⟨_, rfl⟩ <;> decide
  · intro p1 p2 f hp1 hp2 hw1 hw2
    rcases hwalk p1 f hp1 hw1 with ⟨rfl, rfl⟩ | ⟨rfl, rfl⟩ | ⟨rfl, rfl⟩ <;>
      rcases hwalk p2 _ hp2 hw2 with ⟨rfl, h⟩ | ⟨rfl, h⟩ | ⟨rfl, h⟩ <;>
      first | rfl | (exact absurd h (by decide))
  · intro f h0 h1'
    have hcases : f = 0 ∨ f = 1 ∨ f = 2 := by omega
    rcases hcases with rfl | rfl | rfl
    · exact ⟨[], ⟨by decide, trivial⟩, rfl⟩
    · exact ⟨[0], ⟨by decide, by decide, trivial⟩, by decide⟩
    · exact ⟨[1], ⟨by decide, by decide, trivial⟩, by decide⟩

/-- The `int` arithmetic of the leaf case is visible when the pages do not fit `int`: with
`2^32` pages, a leaf for page `2` met while page `0` is the target has
`second_part = 2^32 - 2` narrowed to `-2`, so its distance `-2` does not exceed the
initial `-1` and no candidate is recorded; with `2^10` pages the same leaf is recorded at
distance `2`. -/
theorem find_leaf_wide :
    (find_leaf wideConfig 0 0 2 5 4 SearchState.init).maximal_cyclical_distance = -1 ∧
    (find_leaf wideConfig 0 0 2 5 4
      SearchState.init).maximal_cyclical_distance_frame_index = -1 ∧
    (find_leaf ⟨14, 4, 10⟩ 0 0 2 5 4 SearchState.init).maximal_cyclical_distance = 2 ∧
    (find_leaf ⟨14, 4, 10⟩ 0 0 2 5 4
      SearchState.init).maximal_cyclical_distance_frame_index = 5 := by
  decide

/-! ## The calls of `swap_frame` made by the translator -/

/-- C3. Bounds check: for an address at or beyond `VIRTUAL_MEMORY_SIZE`, `VMread` and
`VMwrite` return `0` and leave the store (words, backing map and trace of calls)
unchanged; `VMread` leaves the output word untouched. -/
theorem C3_out_of_range (cfg : Config) (pm : PhysicalMemory) (virtualAddress : Nat)
    (h : virtualAddress ≥ cfg.VIRTUAL_MEMORY_SIZE) (value v : Int) :
    VMread cfg virtualAddress value pm = (0, value, pm) ∧
    VMwrite cfg virtualAddress v pm = (0, pm) := by
  unfold VMread VMwrite
  rw [if_pos h, if_pos h]
  exact ⟨rfl, rfl⟩

/-- C3 at the scenario configuration, for the first out-of-range address. -/
theorem C3_out_of_range_witness :
    VMread scenarioConfig 0x10000 7 zeroStore = (0, 7, zeroStore) ∧
    VMwrite scenarioConfig 0x10000 9 zeroStore = (0, zeroStore) :=
  C3_out_of_range scenarioConfig zeroStore 0x10000 (by decide) 7 9
/-- C8. Restore discipline: every call of `get_PMaddress` with an in-range address calls
restore exactly once, as its last store call, with the returned frame index and
`virtualAddress >> OFFSET_WIDTH`. -/
theorem C8_restore_once (cfg : Config) (pm : PhysicalMemory) (virtualAddress : Nat)
    (hva : virtualAddress < cfg.VIRTUAL_MEMORY_SIZE) (ret_val : Int) :
    ∃ ops : List PMOp,
      (get_PMaddress cfg virtualAddress ret_val pm).2.2.trace =
        PMOp.restore (get_PMaddress cfg virtualAddress ret_val pm).1
          ((virtualAddress >>> cfg.OFFSET_WIDTH : Nat) : Int) :: (ops ++ pm.trace) ∧
      ∀ op ∈ ops, op.isRestore = false := by
  obtain ⟨ops, hops, hno⟩ := get_PMaddress_loop_trace cfg virtualAddress cfg.TABLES_DEPTH pm
  refine ⟨ops, ?_, hno⟩
  unfold get_PMaddress
  simp only [PMrestore_trace, page_index_eq_shift cfg virtualAddress hva, hops]

/-- C8 on the initialised store of the concrete scenario, for address `0x1234`. -/
theorem C8_restore_once_witness :
    ∃ ops : List PMOp,
      (get_PMaddress scenarioConfig 0x1234 1 ( VMinitialize scenarioConfig zeroStore)).2.2.trace =
        PMOp.restore
          (get_PMaddress scenarioConfig 0x1234 1 ( VMinitialize scenarioConfig zeroStore)).1
          ((0x1234 >>> scenarioConfig.OFFSET_WIDTH : Nat) : Int) ::
            (ops ++ ( VMinitialize scenarioConfig zeroStore).trace) ∧
      ∀ op ∈ ops, op.isRestore = false :=
  C8_restore_once scenarioConfig ( VMinitialize scenarioConfig zeroStore) 0x1234 (by decide) 1

set_option maxRecDepth 100000 in
/-- C9. Translator rejection fails on the code: `get_PMaddress` sets `*ret_val = 0` for an
out-of-range address but does not return.  With the configuration of the concrete
scenario, on the initialised store, the call for address `0x10000` goes on to allocate
frames `1`, `2` and `3`, writes the root entry and ends with a restore. -/
theorem C9_out_of_range_translation_proceeds :
    0x10000 ≥ scenarioConfig.VIRTUAL_MEMORY_SIZE ∧
    (get_PMaddress scenarioConfig 0x10000 1 ( VMinitialize scenarioConfig zeroStore)).2.1 = 0 ∧
    (get_PMaddress scenarioConfig 0x10000 1 ( VMinitialize scenarioConfig zeroStore)).1 = 3 ∧
    ( VMinitialize scenarioConfig zeroStore).RAM 0 = 0 ∧
    (get_PMaddress scenarioConfig 0x10000 1
      ( VMinitialize scenarioConfig zeroStore)).2.2.RAM 0 = 1 ∧
    (get_PMaddress scenarioConfig 0x10000 1
      ( VMinitialize scenarioConfig zeroStore)).2.2.trace.head? = some (PMOp.restore 3 0) ∧
    PMOp.write 0 1 ∈ (get_PMaddress scenarioConfig 0x10000 1
      ( VMinitialize scenarioConfig zeroStore)).2.2.trace := by
  decide

/-- C10, as stated, fails: with a single frame and an empty root, the search records no
free frame and no eviction candidate and `max_used_index + 1 >= NUM_FRAMES`, yet
`swap_frame` returns `-1` after calling evict with `(-1, -1)` and writing `0` at address
`-PAGE_SIZE - 1 = -3`. -/
theorem C10_no_fatal_failure :
    (swap_search oneFrameConfig 0 0 (get_subtable_sizes oneFrameConfig)
      zeroStore).1.free_frame_index = -1 ∧
    ¬ ((swap_search oneFrameConfig 0 0 (get_subtable_sizes oneFrameConfig)
      zeroStore).1.max_used_index + 1 < oneFrameConfig.NUM_FRAMES) ∧
    (swap_search oneFrameConfig 0 0 (get_subtable_sizes oneFrameConfig)
      zeroStore).1.parent_of_maximal_cyclical_distance = -1 ∧
    (swap_frame oneFrameConfig 0 0 (get_subtable_sizes oneFrameConfig) zeroStore).1 = -1 ∧
    (swap_frame oneFrameConfig 0 0 (get_subtable_sizes oneFrameConfig) zeroStore).2.trace =
      [PMOp.write (-3) 0, PMOp.evict (-1) (-1), PMOp.read 1, PMOp.read 0] := by
  decide

/-- C10 amended: when the search records no reusable empty table with a valid parent,
`max_used_index + 1 >= NUM_FRAMES` and the recorded parent of the eviction candidate is
`-1`, `swap_frame` does not fail: it calls evict once with the recorded candidate frame
and page, then writes `0` at address `-PAGE_SIZE + parent_leg_cyclical_index`, and returns
the recorded candidate frame index. -/
theorem C10_proceeds_without_parent (cfg : Config) (pm : PhysicalMemory)
    (start_zero_frame : Int) (page_swapped_in : Nat) (address_proportion : List Nat)
    (h1 : ¬ ((swap_search cfg start_zero_frame page_swapped_in address_proportion
          pm).1.free_frame_index > 0 ∧
        (swap_search cfg start_zero_frame page_swapped_in address_proportion
          pm).1.parent_of_free_index > -1))
    (h2 : ¬ ((swap_search cfg start_zero_frame page_swapped_in address_proportion
          pm).1.max_used_index + 1 < cfg.NUM_FRAMES))
    (h3 : (swap_search cfg start_zero_frame page_swapped_in address_proportion
          pm).1.parent_of_maximal_cyclical_distance = -1) :
    (swap_frame cfg start_zero_frame page_swapped_in address_proportion pm).1 =
      (swap_search cfg start_zero_frame page_swapped_in address_proportion
        pm).1.maximal_cyclical_distance_frame_index ∧
    (swap_frame cfg start_zero_frame page_swapped_in address_proportion pm).2.trace =
      PMOp.write
          (-(cfg.PAGE_SIZE : Int) +
            (swap_search cfg start_zero_frame page_swapped_in address_proportion
              pm).1.parent_leg_cyclical_index) 0 ::
        PMOp.evict
          (swap_search cfg start_zero_frame page_swapped_in address_proportion
            pm).1.maximal_cyclical_distance_frame_index
          (swap_search cfg start_zero_frame page_swapped_in address_proportion
            pm).1.maximal_cyclical_distance_page_index ::
        (swap_search cfg start_zero_frame page_swapped_in address_proportion pm).2.trace := by
  unfold swap_frame
  simp only [if_neg h1, if_neg h2, PMwrite_trace, PMevict_trace, h3, true_and]
  congr 2
  ring

/-- C10 amended, with a single frame and an empty root: evict is called with `(-1, -1)`,
`0` is written at address `-3` and `-1` is returned. -/
theorem C10_proceeds_without_parent_witness :
    (swap_frame oneFrameConfig 0 0 (get_subtable_sizes oneFrameConfig) zeroStore).1 =
      (swap_search oneFrameConfig 0 0 (get_subtable_sizes oneFrameConfig)
        zeroStore).1.maximal_cyclical_distance_frame_index ∧
    (swap_frame oneFrameConfig 0 0 (get_subtable_sizes oneFrameConfig) zeroStore).2.trace =
      PMOp.write
          (-(oneFrameConfig.PAGE_SIZE : Int) +
            (swap_search oneFrameConfig 0 0 (get_subtable_sizes oneFrameConfig)
              zeroStore).1.parent_leg_cyclical_index) 0 ::
        PMOp.evict
          (swap_search oneFrameConfig 0 0 (get_subtable_sizes oneFrameConfig)
            zeroStore).1.maximal_cyclical_distance_frame_index
          (swap_search oneFrameConfig 0 0 (get_subtable_sizes oneFrameConfig)
            zeroStore).1.maximal_cyclical_distance_page_index ::
        (swap_search oneFrameConfig 0 0 (get_subtable_sizes oneFrameConfig)
          zeroStore).2.trace :=
  C10_proceeds_without_parent oneFrameConfig zeroStore 0 0 (get_subtable_sizes oneFrameConfig)
    (by decide) (by decide) (by decide)

/-- C11. Initialization: for every store, after `VMinitialize` all `PAGE_SIZE` words of
frame `0` are `0`, every word of every other frame is unchanged (as is every word outside
frame `0`), and nothing saved is changed. -/
theorem C11_initialization (cfg : Config) (pm : PhysicalMemory) :
    (∀ x : Nat, x < cfg.PAGE_SIZE → ( VMinitialize cfg pm).RAM (0 * cfg.PAGE_SIZE + x) = 0) ∧
    (∀ (f : Int) (x : Nat), f ≠ 0 → x < cfg.PAGE_SIZE →
      ( VMinitialize cfg pm).RAM (f * cfg.PAGE_SIZE + x) = pm.RAM (f * cfg.PAGE_SIZE + x)) ∧
    (∀ a : Int, ¬ (0 ≤ a ∧ a < cfg.PAGE_SIZE) → ( VMinitialize cfg pm).RAM a = pm.RAM a) ∧
    ( VMinitialize cfg pm).swapFile = pm.swapFile := by
  obtain ⟨hram, hswap, _⟩ := empty_frame_spec cfg 0 pm
  have hps := PAGE_SIZE_pos_int cfg
  refine ⟨?_, ?_, ?_, hswap⟩
  · intro x hx
    unfold VMinitialize
    rw [hram]
    have hx' : (x : Int) < cfg.PAGE_SIZE := by exact_mod_cast hx
    simp only [zero_mul, zero_add]
    rw [if_pos ⟨by omega, hx'⟩]
  · intro f x hf hx
    unfold VMinitialize
    rw [hram]
    simp only [zero_mul, zero_add]
    rw [if_neg]
    intro h
    exact hf ((addr_in_frame cfg 0 f x hx).1 (by simpa using h))
  · intro a ha
    unfold VMinitialize
    rw [hram]
    simp only [zero_mul, zero_add]
    rw [if_neg ha]

/-- C11 at the scenario configuration, on a store none of whose words is `0`: word `5`
of frame `0` becomes `0`, word `0` of frame `1` keeps its value `17`. -/
theorem C11_initialization_witness :
    ( VMinitialize scenarioConfig rampStore).RAM (0 * scenarioConfig.PAGE_SIZE + (5 : Nat)) = 0 ∧
    ( VMinitialize scenarioConfig rampStore).RAM (1 * scenarioConfig.PAGE_SIZE + (0 : Nat)) = 17 :=
  ⟨(C11_initialization scenarioConfig rampStore).1 5 (by decide),
    ((C11_initialization scenarioConfig rampStore).2.1 1 0 (by decide) (by decide)).trans
      (by decide)⟩

/-- C13, as stated, fails: in `twoEmptyStore` frames `1` and `2` are all-zero table frames
other than the origin `0`; the traversal meets frame `1` (slot `0` of the root) before
frame `2` (slot `1`), yet the search ends with frame `2` recorded as free, with its parent
`0` and leg `1`, and `swap_frame` returns frame `2`. -/
theorem C13_first_empty_frame_replaced :
    walkFrom twoLevelConfig twoEmptyStore.RAM 0 [0] = some 1 ∧
    walkFrom twoLevelConfig twoEmptyStore.RAM 0 [1] = some 2 ∧
    (∀ x : Nat, x < twoLevelConfig.PAGE_SIZE →
      twoEmptyStore.RAM (1 * twoLevelConfig.PAGE_SIZE + x) = 0 ∧
      twoEmptyStore.RAM (2 * twoLevelConfig.PAGE_SIZE + x) = 0) ∧
    events twoLevelConfig twoEmptyStore.RAM (get_subtable_sizes twoLevelConfig)
        twoLevelConfig.TABLES_DEPTH (-1) 0 0 (-1) =
      [SearchEvent.enter 0, SearchEvent.enter 1, SearchEvent.emptyTable 1 0 0,
        SearchEvent.enter 2, SearchEvent.emptyTable 2 0 1] ∧
    (swap_search twoLevelConfig 0 0 (get_subtable_sizes twoLevelConfig) twoEmptyStore).1.free =
      (2, 0, 1) ∧
    (swap_frame twoLevelConfig 0 0 (get_subtable_sizes twoLevelConfig) twoEmptyStore).1 = 2 ∧
    (swap_frame twoLevelConfig 0 0 (get_subtable_sizes twoLevelConfig) twoEmptyStore).1 ≠ 1 := by
  decide

/-- C13, amended. On a well-formed tree with the origin in it and one or more table frames
other than the origin none of whose slots is populated, the free frame recorded by
`find_frame_to_evict` is the last such frame the depth-first traversal meets: every other
one is reached along slots taken before those of the recorded frame.  The recorded parent
and leg are the entry that links the frame, and `swap_frame` returns the recorded frame. -/
theorem C13_last_empty_frame_recorded (cfg : Config) (pm : PhysicalMemory)
    (start_zero_frame : Int) (page_swapped_in : Nat)
    (hwf : ∃ k pc, TreeInv cfg pm.RAM k ∧ ValidPath cfg pc ∧
      walkFrom cfg pm.RAM 0 pc = some start_zero_frame)
    (hex : ∃ p F, EmptyTablePath cfg pm.RAM start_zero_frame p F) :
    ∃ (p0 : List Nat) (e : Nat),
      EmptyTablePath cfg pm.RAM start_zero_frame (p0 ++ [e])
        (swap_search cfg start_zero_frame page_swapped_in (get_subtable_sizes cfg)
          pm).1.free_frame_index ∧
      (∀ pG G, EmptyTablePath cfg pm.RAM start_zero_frame pG G →
        pG = p0 ++ [e] ∨ LeftOf pG (p0 ++ [e])) ∧
      walkFrom cfg pm.RAM 0 p0 =
        some (swap_search cfg start_zero_frame page_swapped_in (get_subtable_sizes cfg)
          pm).1.parent_of_free_index ∧
      (swap_search cfg start_zero_frame page_swapped_in (get_subtable_sizes cfg)
        pm).1.parent_leg_free_index = e ∧
      (swap_frame cfg start_zero_frame page_swapped_in (get_subtable_sizes cfg) pm).1 =
        (swap_search cfg start_zero_frame page_swapped_in (get_subtable_sizes cfg)
          pm).1.free_frame_index := by
  obtain ⟨k, pc, hT, hpc, hc⟩ := hwf
  obtain ⟨pE, FE, hpE, hlE, hwE, heE, hneE⟩ := hex
  obtain ⟨hst, _⟩ := swap_search_spec cfg start_zero_frame page_swapped_in pm
  have hfree := foldl_absorb_free cfg (toInt32 (page_swapped_in : Int)) start_zero_frame
    (events cfg pm.RAM (get_subtable_sizes cfg) cfg.TABLES_DEPTH (-1) 0 0 (-1)) SearchState.init
  rw [← hst] at hfree
  have hsorted := events_empty_sorted cfg pm.RAM hT.inj cfg.TABLES_DEPTH 0 (-1) 0 0 (-1) []
    (Nat.zero_add _) rfl (ValidPath_nil cfg) rfl
  have hmemE := (mem_root_events_emptyTable cfg pm.RAM FE _ _).2 ⟨pE, hpE, hlE, hwE, heE, rfl⟩
  rcases hfree with ⟨_, hnone⟩ | ⟨l1, l2, F, P, leg, hl, hFc, hl2, hf⟩
  · exact absurd (hnone _ _ _ hmemE) hneE
  · have hmem : SearchEvent.emptyTable F P leg ∈
        events cfg pm.RAM (get_subtable_sizes cfg) cfg.TABLES_DEPTH (-1) 0 0 (-1) := by
      rw [hl]; simp
    obtain ⟨pF, hpF, hlF, hwF, heF, hlink⟩ :=
      (mem_root_events_emptyTable cfg pm.RAM F P leg).1 hmem
    have hpne : pF ≠ [] := by
      rintro rfl
      simp only [walkFrom, Option.some.injEq] at hwF
      subst hwF
      exact root_not_empty cfg pm.RAM pc start_zero_frame hpc hc (fun h => hFc h.symm) heF
    obtain ⟨p0, e, P', rfl, hP', hlink'⟩ := lastLink_nonempty cfg pm.RAM pF hpne F hwF (-1) (-1)
    rw [hlink'] at hlink
    simp only [Prod.mk.injEq] at hlink
    obtain ⟨rfl, rfl⟩ := hlink
    simp only [SearchState.free, Prod.mk.injEq] at hf
    obtain ⟨hfF, hfP, hfL⟩ := hf
    have hF1 := TreeInv_ne_zero hT p0 e F hpF hwF
    have hP0 := (hT.bound p0 P (ValidPath_of_append cfg p0 [e] hpF) hP').1
    refine ⟨p0, e, ?_, ?_, ?_, hfL, ?_⟩
    · rw [hfF]
      exact ⟨hpF, hlF, hwF, heF, hFc⟩
    · intro pG G ⟨hpG, hlG, hwG, heG, hneG⟩
      have hmemG := (mem_root_events_emptyTable cfg pm.RAM G _ _).2
        ⟨pG, hpG, hlG, hwG, heG, rfl⟩
      rw [hl] at hmemG hsorted
      rcases List.mem_append.1 hmemG with h1 | h2
      · right
        have hR := (List.pairwise_append.1 hsorted).2.2 _ h1 _ (List.mem_cons_self _ _)
        exact hR _ _ _ _ _ _ pG (p0 ++ [e]) rfl rfl hpG hpF hwG hwF
      · rcases List.mem_cons.1 h2 with h3 | h4
        · simp only [SearchEvent.emptyTable.injEq] at h3
          left
          exact hT.inj _ _ _ hpG hpF hwG (h3.1 ▸ hwF)
        · exact absurd (hl2 _ _ _ h4) hneG
    · rw [hfP]; exact hP'
    · unfold swap_frame
      simp only
      rw [if_pos ⟨by rw [hfF]; omega, by rw [hfP]; omega⟩]

/-- C13, amended, on `twoEmptyStore`, which has two empty table frames other than the
origin: the frame recorded and returned is frame `2`, the one met last. -/
theorem C13_last_empty_frame_recorded_witness :
    ∃ (p0 : List Nat) (e : Nat),
      EmptyTablePath twoLevelConfig twoEmptyStore.RAM 0 (p0 ++ [e]) 2 ∧
      (∀ pG G, EmptyTablePath twoLevelConfig twoEmptyStore.RAM 0 pG G →
        pG = p0 ++ [e] ∨ LeftOf pG (p0 ++ [e])) :=
  have h := C13_last_empty_frame_recorded twoLevelConfig twoEmptyStore 0 0
    ⟨2, [], twoEmptyStore_tree, ValidPath_nil _, rfl⟩
    ⟨[0], 1, ⟨by decide, by decide, trivial⟩, by decide, by decide, by decide, by decide⟩
  h.elim fun p0 h1 => h1.elim fun e h2 =>
    ⟨p0, e, (show (swap_search twoLevelConfig 0 0 (get_subtable_sizes twoLevelConfig)
      twoEmptyStore).1.free_frame_index = 2 by decide) ▸ h2.1, h2.2.1⟩

/-- C15. Address decomposition: for every page index `p < NUM_PAGES` (and at least one
offset bit), `separate_address p` fills `TABLES_DEPTH` entries,
`entries[j] = (p >> (OFFSET_WIDTH * (TABLES_DEPTH - 1 - j))) mod 2^OFFSET_WIDTH` for every
`j < TABLES_DEPTH`, so that `entries[0]` holds the highest bits (the root level), and the
sum over `j` of `entries[j] * 2^(OFFSET_WIDTH * (TABLES_DEPTH - 1 - j))` is `p`. -/
theorem C15_address_decomposition (cfg : Config) (h1 : 1 ≤ cfg.OFFSET_WIDTH) (p : Nat)
    (hp : p < cfg.NUM_PAGES) :
    (separate_address cfg p).length = cfg.TABLES_DEPTH ∧
    (∀ j, j < cfg.TABLES_DEPTH →
      (separate_address cfg p).getD j 0 =
        (p >>> (cfg.OFFSET_WIDTH * (cfg.TABLES_DEPTH - 1 - j))) % 2 ^ cfg.OFFSET_WIDTH) ∧
    Finset.sum (Finset.range cfg.TABLES_DEPTH) (fun j =>
      (separate_address cfg p).getD j 0 *
        2 ^ (cfg.OFFSET_WIDTH * (cfg.TABLES_DEPTH - 1 - j))) = p := by
  refine ⟨separate_address_length cfg p,
    fun j hj => separate_address_loop_getD cfg cfg.TABLES_DEPTH p j hj, ?_⟩
  unfold separate_address
  rw [separate_address_loop_sum]
  exact Nat.mod_eq_of_lt (lt_of_lt_of_le hp (NUM_PAGES_le_pow cfg h1))

/-- C15 at the scenario configuration (`OFFSET_WIDTH = 4`, three levels): page `0xABC`
is split into `0xA, 0xB, 0xC`, and the weighted sum of the entries is the page. -/
theorem C15_address_decomposition_witness :
    separate_address scenarioConfig 0xABC = [0xA, 0xB, 0xC] ∧
    Finset.sum (Finset.range scenarioConfig.TABLES_DEPTH) (fun j =>
      (separate_address scenarioConfig 0xABC).getD j 0 *
        2 ^ (scenarioConfig.OFFSET_WIDTH * (scenarioConfig.TABLES_DEPTH - 1 - j))) = 0xABC :=
  ⟨by decide, (C15_address_decomposition scenarioConfig (by decide) 0xABC (by decide)).2.2⟩

/-- C16. Level widths: for every configuration with `OFFSET_WIDTH ≥ 1` and
`VIRTUAL_ADDRESS_WIDTH > OFFSET_WIDTH`, `get_subtable_sizes` fills `TABLES_DEPTH` widths:
`sizes[0]` is `(VIRTUAL_ADDRESS_WIDTH - OFFSET_WIDTH) mod OFFSET_WIDTH`, or `OFFSET_WIDTH`
when that remainder is `0`; `sizes[i] = OFFSET_WIDTH` for `1 ≤ i < TABLES_DEPTH`; every
width is in `[1, OFFSET_WIDTH]`; and the widths sum to
`VIRTUAL_ADDRESS_WIDTH - OFFSET_WIDTH`. -/
theorem C16_level_widths (cfg : Config) (h1 : 1 ≤ cfg.OFFSET_WIDTH)
    (h2 : cfg.OFFSET_WIDTH < cfg.VIRTUAL_ADDRESS_WIDTH) :
    (get_subtable_sizes cfg).length = cfg.TABLES_DEPTH ∧
    (get_subtable_sizes cfg).getD 0 0 =
      (if (cfg.VIRTUAL_ADDRESS_WIDTH - cfg.OFFSET_WIDTH) % cfg.OFFSET_WIDTH = 0
        then cfg.OFFSET_WIDTH
        else (cfg.VIRTUAL_ADDRESS_WIDTH - cfg.OFFSET_WIDTH) % cfg.OFFSET_WIDTH) ∧
    (∀ i, 1 ≤ i → i < cfg.TABLES_DEPTH → (get_subtable_sizes cfg).getD i 0 = cfg.OFFSET_WIDTH) ∧
    (∀ w ∈ get_subtable_sizes cfg, 1 ≤ w ∧ w ≤ cfg.OFFSET_WIDTH) ∧
    (get_subtable_sizes cfg).sum = cfg.VIRTUAL_ADDRESS_WIDTH - cfg.OFFSET_WIDTH := by
  have hD := TABLES_DEPTH_ge_one cfg h1 h2
  have hsum := levelWidth_total cfg h1 h2
  have h0 := levelWidth_zero cfg
  have hmod : (cfg.VIRTUAL_ADDRESS_WIDTH - cfg.OFFSET_WIDTH) % cfg.OFFSET_WIDTH <
      cfg.OFFSET_WIDTH := Nat.mod_lt _ (by omega)
  refine ⟨?_, h0, ?_, ?_, ?_⟩
  · simp only [get_subtable_sizes, List.length_cons, List.length_replicate]
    omega
  · intro i hi1 hi2
    exact levelWidth_of_pos cfg i (by omega) hi2
  · intro w hw
    simp only [get_subtable_sizes, List.mem_cons, List.mem_replicate] at hw
    rcases hw with hw | ⟨_, hw⟩
    · rw [hw]
      split_ifs with hz
      · exact ⟨h1, le_refl _⟩
      · exact ⟨by omega, by omega⟩
    · rw [hw]; exact ⟨h1, le_refl _⟩
  · rw [← hsum, h0]
    simp only [get_subtable_sizes, List.sum_cons, List.sum_replicate, smul_eq_mul]
    rw [Nat.mul_comm]

/-- C16 at a configuration whose root level is narrower than the others:
`VIRTUAL_ADDRESS_WIDTH = 16`, `OFFSET_WIDTH = 5`: the widths are `1, 5, 5`. -/
theorem C16_level_widths_witness :
    get_subtable_sizes ⟨16, 5, 10⟩ = [1, 5, 5] ∧
    (get_subtable_sizes ⟨16, 5, 10⟩).sum = 16 - 5 :=
  ⟨by decide, (C16_level_widths ⟨16, 5, 10⟩ (by decide) (by decide)).2.2.2.2⟩

end VirtualMemory
